import Mathlib

/-!
# karage: path evaluator, task resources, pass state and the run entry point

A shallow embedding of `compiler/referencePath.go`, `statemachine/taskState.go`,
`statemachine/passState.go` and `worker/worker.go` (the entry point and the
traversal of the states).

Conventions of the embedding.

* A Go `string` and a Go `[]byte` are both a Lean `String`: the text is taken to
  be valid UTF-8.
* A Go function returning `(T, error)` is a pair `T × Option error`; a nil
  pointer result is `none`.
* Libraries outside the repository (the `jp` path parser, `os/exec`,
  `encoding/json`) are parameters, gathered in structures; so are the functions
  of the repository that the files call and that are declared in other files.
* A call that may panic, or end the process, has an `Outcome`.
-/

namespace Karage

/-! ## Go `strings` helpers -/

/-- Go `strings.HasPrefix(s, pre)`. -/
def HasPrefix (s pre : String) : Bool :=
  pre.data.isPrefixOf s.data

/-- Go `strings.TrimPrefix(s, pre)`: `s` without the leading `pre`, or `s` itself
when it does not start with `pre`. -/
def TrimPrefix (s pre : String) : String :=
  if HasPrefix s pre then String.mk (s.data.drop pre.data.length) else s

/-! ## Errors -/

/-- The error values that occur in the embedded code. The sentinels of the
`compiler`, `statemachine` and `worker` packages are package-level variables, each a
value of its own; `external` stands for any error made by a library outside the
repository (the path parser, `os/exec`, `encoding/json`), carrying its message;
`Errorf` is an error made on the spot by `fmt.Errorf` with the given text; `wrap` is
an error that wraps another one (as `fmt.Errorf` does with `%w`), which `errors.Is`
looks through. -/
inductive error where
  | ErrNotReferencePath
  | ErrInvalidTaskResource
  | ErrInvalidTaskResourceType
  | ErrInvalidTaskInput
  | ErrStateMachineTerminated
  | ErrUnknownStateType
  | external (msg : String)
  | Errorf (msg : String)
  | wrap (msg : String) (inner : error)
  deriving DecidableEq, Repr

/-- Go `errors.Is(err, target)` for a non-nil `err`: `err` is `target`, or wraps an
error that is. -/
def error.Is : error → error → Bool
  | .wrap msg inner, target => (error.wrap msg inner = target) || inner.Is target
  | e, target => e = target

/-- Go `errors.Is(err, ErrStateMachineTerminated)`, where a nil `err` is `none`. -/
def isTerminated (err : Option error) : Bool :=
  match err with
  | none => false
  | some e => e.Is error.ErrStateMachineTerminated

/-! ## `compiler/referencePath.go` -/

/-- The fragment types of `github.com/ohler55/ojg/jp` (a `jp.Expr` is a slice of
fragments). Only the dynamic type of a fragment matters to `NewReferencePath`; the
payloads are kept so that two expressions can be compared. -/
inductive Frag where
  | Root
  | At
  | Child (key : String)
  | Nth (i : Int)
  | Wildcard
  | Descent
  | Bracket
  | Union (members : List (String ⊕ Int))
  | Slice (bounds : List Int)
  | Filter (script : String)
  deriving DecidableEq, Repr

/-- A `jp.Expr`. -/
abbrev Expr := List Frag

/-- The two functions of the `jp` library that the file calls: `jp.ParseString`
(a syntax error is the library's own error, with its message) and
`jp.Expr.String`. -/
structure JP where
  ParseString : String → Except String Expr
  String : Expr → String

/-- Go `referencePath`. -/
structure referencePath where
  Expr : Expr
  IsContextPath : Bool
  deriving DecidableEq, Repr

/-- The zero value `referencePath{}`: a nil expression and a false flag. -/
def referencePath.zero : referencePath := { Expr := [], IsContextPath := false }

/-- The type switch of `NewReferencePath`: the fragment is a `jp.At`, `jp.Union`,
`jp.Slice` or `*jp.Filter`. -/
def Frag.isForbidden : Frag → Bool
  | .At => true
  | .Union _ => true
  | .Slice _ => true
  | .Filter _ => true
  | _ => false

/-- The text that `NewReferencePath` hands to the parser: one `$` is taken off a
path that starts with `$$`. -/
def parsedText (path : String) : String :=
  if HasPrefix path "$$" then TrimPrefix path "$" else path

/-- Go `NewReferencePath`. -/
def NewReferencePath (jp : JP) (path : String) : referencePath × Option error :=
  let isContext := HasPrefix path "$$"
  let path := if isContext then TrimPrefix path "$" else path
  match jp.ParseString path with
  | .error msg => (referencePath.zero, some (error.external msg))
  | .ok p =>
    if p.any Frag.isForbidden then (referencePath.zero, some error.ErrNotReferencePath)
    else ({ Expr := p, IsContextPath := isContext }, none)

/-- Go `referencePath.String`. -/
def referencePath.String (jp : JP) (p : referencePath) : String :=
  jp.String p.Expr

/-! ## More of Go `strings` -/

/-- The pieces of `s` between the occurrences of `sep`: one more piece than there are
occurrences. -/
def splitChars (sep : Char) : List Char → List (List Char)
  | [] => [[]]
  | c :: cs =>
    if c = sep then [] :: splitChars sep cs
    else
      match splitChars sep cs with
      | [] => [[c]]
      | piece :: pieces => (c :: piece) :: pieces

/-- Go `strings.Split(s, sep)` for a separator of one character, which is how
`parseResource` calls it (`":"`). -/
def Split (s : String) (sep : Char) : List String :=
  (splitChars sep s.data).map String.mk

/-- Go `strings.Join(elems, sep)`. -/
def Join : List String → String → String
  | [], _ => ""
  | [a], _ => a
  | a :: b :: rest, sep => a ++ sep ++ Join (b :: rest) sep

/-- Go `strings.Trim(s, cutset)`: `s` without the leading and trailing characters
that occur in `cutset`. With an empty `cutset` nothing is cut. -/
def Trim (s cutset : String) : String :=
  let cut := fun c => cutset.data.contains c
  String.mk ((s.data.dropWhile cut).reverse.dropWhile cut).reverse

/-- Go `unicode.IsSpace`: the Latin-1 spaces and the characters with the Unicode
White_Space property. -/
def IsSpace (c : Char) : Bool :=
  let n := c.toNat
  n = 0x09 || n = 0x0A || n = 0x0B || n = 0x0C || n = 0x0D || n = 0x20
    || n = 0x85 || n = 0xA0 || n = 0x1680 || (0x2000 ≤ n && n ≤ 0x200A)
    || n = 0x2028 || n = 0x2029 || n = 0x202F || n = 0x205F || n = 0x3000

/-- Go `strings.TrimSpace(s)`. -/
def TrimSpace (s : String) : String :=
  String.mk ((s.data.dropWhile IsSpace).reverse.dropWhile IsSpace).reverse

/-! ## Outcomes of a call -/

/-- How a Go call ends: it returns, it panics, or the process exits inside it. -/
inductive Outcome (α : Type) where
  | returned (v : α)
  | panicked (msg : String)
  | exited (code : Nat)

/-! ## `statemachine/taskState.go` -/

/-- An `ajson.Node`, by its six node types, each named as the `ajson` function that
makes it. A numeric node keeps the text of its literal; an object is the list of its
fields, read by key. -/
inductive Node where
  | NullNode
  | BoolNode (b : Bool)
  | NumericNode (lit : String)
  | StringNode (s : String)
  | ArrayNode (elems : List Node)
  | ObjectNode (fields : List (String × Node))

/-- Go `(*ajson.Node).IsObject`. -/
def Node.IsObject : Node → Bool
  | .ObjectNode _ => true
  | _ => false

/-- Go `(*ajson.Node).IsArray`. -/
def Node.IsArray : Node → Bool
  | .ArrayNode _ => true
  | _ => false

/-- Go `(*ajson.Node).IsString`. -/
def Node.IsString : Node → Bool
  | .StringNode _ => true
  | _ => false

/-- Go `(*ajson.Node).MustObject`, on an object node (the code calls it only after
`IsObject`). -/
def Node.MustObject : Node → List (String × Node)
  | .ObjectNode fields => fields
  | _ => []

/-- Go `(*ajson.Node).MustArray`, on an array node. -/
def Node.MustArray : Node → List Node
  | .ArrayNode elems => elems
  | _ => []

/-- Go `(*ajson.Node).MustString`, on a string node. -/
def Node.MustString : Node → String
  | .StringNode s => s
  | _ => ""

/-- Go `TaskState`, over the type of the embedded `CommonState` (declared outside
the files at hand). -/
structure TaskState (CS : Type) where
  CommonState : CS
  Resource : String
  Parameters : Option String
  ResultPath : String
  ResultSelector : Option String
  Retry : String
  Catch : String
  TimeoutSeconds : String
  TimeoutSecondsPath : String
  HeartbeatSeconds : String
  HeartbeatSecondsPath : String

/-- Go `resource`. -/
structure resource where
  typ : String
  name : String
  deriving DecidableEq, Repr

/-- The body of `TaskState.parseResource`, on the `Resource` string. -/
def parseResourceString (Resource : String) : Option resource × Option error :=
  let v := Split Resource ':'
  if v.length < 2 then (none, some error.ErrInvalidTaskResource)
  else
    let v := if v.length > 2 then v.set 1 (Join (v.drop 1) "") else v
    if Trim (v.getD 0 "") "" = "" ∨ Trim (v.getD 1 "") "" = "" then
      (none, some error.ErrInvalidTaskResource)
    else (some { typ := v.getD 0 "", name := v.getD 1 "" }, none)

/-- Go `TaskState.parseResource`. -/
def TaskState.parseResource {CS : Type} (s : TaskState CS) : Option resource × Option error :=
  parseResourceString s.Resource

/-- The text of `s` before its first `:` (all of `s` when it has none). -/
def schemePart (s : String) : String :=
  String.mk (s.data.takeWhile (fun c => c ≠ ':'))

/-- The text of `s` after its first `:`. -/
def namePart (s : String) : String :=
  String.mk ((s.data.dropWhile (fun c => c ≠ ':')).drop 1)

/-- The two calls of `os/exec` that `execScript` makes: `exec.LookPath(name)` and
`exec.CommandContext(ctx, exe, args...).Output()` (the context's cancellation is
part of what `Output` answers). An error carries its message. -/
structure OS where
  LookPath : String → Except String String
  Output : String → List String → Except String String

/-- A call made to `os/exec`. -/
inductive Call where
  | LookPath (name : String)
  | Run (exe : String) (args : List String)
  deriving DecidableEq, Repr

/-- Go `resource.execScript`, with the calls it makes to `os/exec`. -/
def resource.execScript (os : OS) (res : resource) (args : List String) :
    (Option String × Option error) × List Call :=
  match os.LookPath res.name with
  | .error msg => ((none, some (error.external msg)), [Call.LookPath res.name])
  | .ok exe =>
    match os.Output exe args with
    | .error msg => ((none, some (error.external msg)), [Call.LookPath res.name, Call.Run exe args])
    | .ok out => ((some out, none), [Call.LookPath res.name, Call.Run exe args])

/-- The loop of `resource.exec` over the elements of `args`: it stops at the first
element that is not a string, and otherwise appends each string to `args`. -/
def collectArgs : List Node → List String → Option (List String)
  | [], args => some args
  | v :: vs, args => if !v.IsString then none else collectArgs vs (args ++ [v.MustString])

/-- Go `resource.exec`, with the calls it makes to `os/exec`. -/
def resource.exec (os : OS) (res : resource) (input : Node) :
    Outcome (Option Node × Option error) × List Call :=
  if res.typ = "script" then
    if !input.IsObject then (.returned (none, some error.ErrInvalidTaskInput), [])
    else
      let args : Option (List String) :=
        match input.MustObject.lookup "args" with
        | some input =>
          if !input.IsArray then none else collectArgs input.MustArray []
        | none => some []
      match args with
      | none => (.returned (none, some error.ErrInvalidTaskInput), [])
      | some args =>
        match res.execScript os args with
        | ((some out, none), calls) =>
          (.returned (some (Node.ObjectNode [("result", Node.StringNode out)]), none), calls)
        | ((_, err), calls) => (.returned (none, err), calls)
  else if res.typ = "command" then
    (.panicked "not implemented: Task state, resource type = command", [])
  else if res.typ = "curl" then
    (.panicked "not implemented: Task state, resource type = curl", [])
  else (.returned (none, some error.ErrInvalidTaskResourceType), [])

/-! ## `statemachine/passState.go` -/

/-- Go `PassState`, over the type of the embedded `CommonState`. -/
structure PassState (CS : Type) where
  CommonState : CS
  Result : String
  ResultPath : String
  Parameters : String

/-- What a `Transition` returns: `(next string, w *ajson.Node, err error)`. -/
abbrev TransitionResult := String × Option Node × Option error

/-- The type of `CommonState.TransitionWithResultpathParameters`, a method declared
outside the files at hand: the receiver, the context, the input node, the
parameters (nil or a raw message), the result path, and the core function (nil or a
function). -/
abbrev CommonTransition (CS Ctx : Type) :=
  CS → Ctx → Node → Option String → String →
    Option (Ctx → Node → TransitionResult) → TransitionResult

/-- Go `PassState.Transition`. -/
def PassState.Transition {CS Ctx : Type} (common : CommonTransition CS Ctx)
    (s : PassState CS) (ctx : Ctx) (r : Node) : TransitionResult :=
  common s.CommonState ctx r none s.ResultPath none

/-! ## `worker/worker.go`: the entry point -/

/-- Go `EmptyJSON`. -/
def EmptyJSON : String := "{}"

/-- What `Exec` is run with, apart from its arguments: the outcome of
`uuid.NewRandom`, `json.Unmarshal` and `json.Marshal` on the decoded values `Val`,
the traversal `Workflow.exec` of the workflow with a given run identifier, and
whether the logger's `Fatalln` comes back to its caller (it ends the process unless
the logger's exit function was replaced). -/
structure Runtime (W Val : Type) where
  NewRandom : Except String String
  Unmarshal : String → Except String Val
  Marshal : Option Val → Except String String
  exec : W → String → Val → Outcome (Option Val × Option error)
  fatalReturns : Bool

/-- Go `Workflow.errorLog` followed by `return nil, err`: `Fatalln` writes the
entry and calls the logger's exit function. -/
def errorLogThenReturn {W Val : Type} (rt : Runtime W Val) (err : error) :
    Outcome (Option String × Option error) :=
  if rt.fatalReturns then .returned (none, some err) else .exited 1

/-- The second statement of `Exec`: a nil buffer (`none`), and a buffer whose text
is empty once its spaces are trimmed, is replaced by a buffer with the text of
`EmptyJSON`. The result is the text of the buffer that is decoded. -/
def decodedText (input : Option String) : String :=
  match input with
  | none => EmptyJSON
  | some buf => if TrimSpace buf = "" then EmptyJSON else buf

/-- Go `Exec`. The input is `none` for a nil buffer and the buffer's text
otherwise. When `NewWorkflow` fails the error is only printed and `workflow` stays
nil, so the first call of a method on it (all have a value receiver) panics. -/
def Exec {W Val : Type} (rt : Runtime W Val) (w : W) (input : Option String) :
    Outcome (Option String × Option error) :=
  let workflow : Option (W × String) :=
    match rt.NewRandom with
    | .error _ => none
    | .ok id => some (w, id)
  let input : String := decodedText input
  match workflow with
  | none => .panicked "invalid memory address or nil pointer dereference"
  | some (w, id) =>
    match rt.Unmarshal input with
    | .error msg => errorLogThenReturn rt (error.external msg)
    | .ok val =>
      match rt.exec w id val with
      | .panicked msg => .panicked msg
      | .exited code => .exited code
      | .returned (_, some err) => errorLogThenReturn rt err
      | .returned (out, none) =>
        match rt.Marshal out with
        | .error msg => errorLogThenReturn rt (error.external msg)
        | .ok b => .returned (some b, none)

/-! ## `worker/worker.go`: the traversal -/

/-- Sequencing of two calls: the second runs on what the first returns; a panic or
an exit of the first is the end of both. -/
def Outcome.bind {α β : Type} (o : Outcome α) (f : α → Outcome β) : Outcome β :=
  match o with
  | .returned v => f v
  | .panicked msg => .panicked msg
  | .exited code => .exited code

/-- The dynamic type of `compiler.State.Body`: a pointer to one of the eight state
types, with its value `body`, or anything else. -/
inductive StateBody (B : Type) where
  | ChoiceState (body : B)
  | FailState (body : B)
  | MapState (body : B)
  | ParallelState (body : B)
  | PassState (body : B)
  | SucceedState (body : B)
  | TaskState (body : B)
  | WaitState (body : B)
  | other (body : B)

/-- Go `compiler.State`, as far as the traversal reads it: its `Body`, its table
`Choices` from a key to a sequence of states (read by key), and `Fields` for the
rest (type, name, next state, paths), which the traversal only passes on. -/
inductive State (F B : Type) where
  | mk (Fields : F) (Body : StateBody B) (Choices : List (String × List (State F B)))

/-- Go `compiler.States`, a slice of states. -/
abbrev States (F B : Type) := List (State F B)

/-- The fields of a state other than `Body` and `Choices`. -/
def State.Fields {F B : Type} : State F B → F
  | .mk fields _ _ => fields

/-- Go `state.Body`. -/
def State.Body {F B : Type} : State F B → StateBody B
  | .mk _ body _ => body

/-- Go `state.Choices`. -/
def State.Choices {F B : Type} : State F B → List (String × States F B)
  | .mk _ _ choices => choices

/-- Go `statesError`, a string that is compared with the empty string. -/
abbrev statesError := String

/-- What the traversal of a `Workflow` value `w` calls and is declared outside the
files at hand: the three functions of the data-flow stages, the methods of `w` that
evaluate one kind of state each (a method may panic, or end the process), and
whether the `Fatalln` of the logger of `w` comes back to its caller. A nil
`interface{}` value is `none`. -/
structure Engine (F B Val : Type) where
  GenerateEffectiveInput : State F B → Option Val → Option Val × Option error
  GenerateEffectiveResult : State F B → Option Val → Option Val → Option Val × Option error
  FilterByOutputPath : State F B → Option Val → Option Val × Option error
  evalChoice : B → Option Val → Outcome (String × Option Val × Option error)
  evalFail : B → Option Val → Outcome (Option Val × Option error)
  evalMap : B → Option Val → Outcome (Option Val × Option error)
  evalParallel : B → Option Val → Outcome (Option Val × Option error)
  evalPass : B → Option Val → Outcome (Option Val × Option error)
  evalSucceed : B → Option Val → Outcome (Option Val × Option error)
  evalTask : B → Option Val → Outcome (Option Val × Option error)
  evalWait : B → Option Val → Outcome (Option Val × Option error)
  fatalReturns : Bool

/-- Go `Workflow.errorLog`: the error is written with `Fatalln`, which then calls
the logger's exit function, so the process ends with status 1 unless that function
returns. -/
def Workflow.errorLog {F B Val : Type} (w : Engine F B Val) : Outcome Unit :=
  if w.fatalReturns then .returned () else .exited 1

/-- The three statements that follow the call of the evaluating method in each case
of `Workflow.eval`: on the terminal signal the output is returned with a nil error,
on another error the error is returned with a nil output, and otherwise the output
is returned. The `statesError` is empty in the three. -/
def evalReturn {Val : Type} (r : Option Val × Option error) :
    Option Val × statesError × Option error :=
  if isTerminated r.2 then (r.1, "", none)
  else if r.2 ≠ none then (none, "", r.2)
  else (r.1, "", none)

/-- Go `Workflow.eval`. There is no case for a choice state. -/
def Workflow.eval {F B Val : Type} (w : Engine F B Val) (state : State F B)
    (input : Option Val) : Outcome (Option Val × statesError × Option error) :=
  match state.Body with
  | .FailState body => (w.evalFail body input).bind fun r => .returned (evalReturn r)
  | .MapState body => (w.evalMap body input).bind fun r => .returned (evalReturn r)
  | .ParallelState body => (w.evalParallel body input).bind fun r => .returned (evalReturn r)
  | .PassState body => (w.evalPass body input).bind fun r => .returned (evalReturn r)
  | .SucceedState body => (w.evalSucceed body input).bind fun r => .returned (evalReturn r)
  | .TaskState body => (w.evalTask body input).bind fun r => .returned (evalReturn r)
  | .WaitState body => (w.evalWait body input).bind fun r => .returned (evalReturn r)
  | _ =>
    (Workflow.errorLog w).bind fun _ => .returned (none, "", some error.ErrUnknownStateType)

/-- Go `Workflow.execState`. -/
def Workflow.execState {F B Val : Type} (w : Engine F B Val) (state : State F B)
    (input : Option Val) :
    Outcome (Option Val × Option (States F B) × statesError × Option error) :=
  match state.Body with
  | .ChoiceState choice =>
    (w.evalChoice choice input).bind fun (next, out, err) =>
      if isTerminated err then .returned (out, none, "", err)
      else if err ≠ none then
        (Workflow.errorLog w).bind fun _ => .returned (none, none, "", err)
      else
        match state.Choices.lookup next with
        | none =>
          (Workflow.errorLog w).bind fun _ =>
            .returned (none, none, "", some (error.Errorf ("'next' key is invalid: " ++ next)))
        | some s => .returned (out, some s, "", none)
  | _ =>
    (Workflow.eval w state input).bind fun (out, stateserr, err) =>
      if isTerminated err then .returned (out, none, stateserr, err)
      else if err ≠ none then .returned (none, none, "", err)
      else .returned (out, none, stateserr, none)

/-- Go `Workflow.execStateWithRetry`. -/
def Workflow.execStateWithRetry {F B Val : Type} (w : Engine F B Val) (state : State F B)
    (input : Option Val) : Outcome (Option Val × Option (States F B) × Option error) :=
  (Workflow.execState w state input).bind fun (result, branch, stateserr, err) =>
    if isTerminated err then .returned (result, none, err)
    else if err ≠ none then .returned (none, none, err)
    else if stateserr ≠ "" then .returned (result, none, some error.ErrStateMachineTerminated)
    else .returned (result, branch, none)

/-- Go `Workflow.execStateWithFilter` (the line it writes to the log first is left
out). -/
def Workflow.execStateWithFilter {F B Val : Type} (w : Engine F B Val) (state : State F B)
    (rawinput : Option Val) : Outcome (Option Val × Option (States F B) × Option error) :=
  match w.GenerateEffectiveInput state rawinput with
  | (_, some err) => (Workflow.errorLog w).bind fun _ => .returned (none, none, some err)
  | (effectiveInput, none) =>
    (Workflow.execStateWithRetry w state effectiveInput).bind fun (result, branch, err) =>
      if isTerminated err then .returned (result, none, err)
      else if err ≠ none then .returned (none, none, err)
      else
        match w.GenerateEffectiveResult state rawinput result with
        | (_, some err) => (Workflow.errorLog w).bind fun _ => .returned (none, none, some err)
        | (effectiveResult, none) =>
          match w.FilterByOutputPath state effectiveResult with
          | (_, some err) =>
            (Workflow.errorLog w).bind fun _ => .returned (none, none, some err)
          | (effectiveOutput, none) => .returned (effectiveOutput, branch, none)

set_option linter.unusedVariables false in
/-- The loop of Go `Workflow.execStates` from the state at the head of `states`,
with the current values of `input` and of the named result `output`. The call of
`execStates` on a branch is a new run of the loop, where `output` is nil again. It
ends: a branch is an entry of the table of the state at hand. -/
def Workflow.execStatesFrom {F B Val : Type} (w : Engine F B Val) (states : States F B)
    (input output : Option Val) : Outcome (Option Val × Option error) :=
  match states with
  | [] => .returned (output, none)
  | state :: rest =>
    match h : Workflow.execStateWithFilter w state input with
    | .panicked msg => .panicked msg
    | .exited code => .exited code
    | .returned (output, branch, err) =>
      if isTerminated err then .returned (output, none)
      else if err ≠ none then .returned (none, err)
      else
        match branch with
        | some branch => Workflow.execStatesFrom w branch output none
        | none => Workflow.execStatesFrom w rest output output
termination_by sizeOf states
decreasing_by
  · simp_wf
    have bindReturned : ∀ {α β : Type} (o : Outcome α) (f : α → Outcome β) (y : β),
        o.bind f = .returned y → ∃ x, o = .returned x ∧ f x = .returned y := by
      intro α β o f y hb
      cases o with
      | returned v => exact ⟨v, rfl, hb⟩
      | panicked msg => simp [Outcome.bind] at hb
      | exited code => simp [Outcome.bind] at hb
    have ofExecState : ∀ i out b se e,
        Workflow.execState w state i = .returned (out, some b, se, e) →
          ∃ next, state.Choices.lookup next = some b := by
      intro i out b se e h1
      unfold Workflow.execState at h1
      split at h1
      · obtain ⟨⟨next, o, err⟩, _, h2⟩ := bindReturned _ _ _ h1
        dsimp only at h2
        split at h2
        · simp at h2
        · split at h2
          · obtain ⟨_, _, h3⟩ := bindReturned _ _ _ h2
            simp at h3
          · split at h2
            · obtain ⟨_, _, h3⟩ := bindReturned _ _ _ h2
              simp at h3
            · rename_i s hs
              simp only [Outcome.returned.injEq, Prod.mk.injEq, Option.some.injEq] at h2
              exact ⟨next, by rw [hs, h2.2.1]⟩
      · obtain ⟨⟨o, se', err⟩, _, h2⟩ := bindReturned _ _ _ h1
        dsimp only at h2
        split at h2
        · simp at h2
        · split at h2 <;> simp at h2
    have ofExecStateWithRetry : ∀ i out b e,
        Workflow.execStateWithRetry w state i = .returned (out, some b, e) →
          ∃ next, state.Choices.lookup next = some b := by
      intro i out b e h1
      unfold Workflow.execStateWithRetry at h1
      obtain ⟨⟨r, br, se, err⟩, h0, h2⟩ := bindReturned _ _ _ h1
      dsimp only at h2
      split at h2
      · simp at h2
      · split at h2
        · simp at h2
        · split at h2
          · simp at h2
          · simp only [Outcome.returned.injEq, Prod.mk.injEq] at h2
            rw [h2.2.1] at h0
            exact ofExecState i _ _ _ _ h0
    have ofExecStateWithFilter : ∃ next, state.Choices.lookup next = some branch := by
      have h1 := h
      unfold Workflow.execStateWithFilter at h1
      split at h1
      · obtain ⟨_, _, h3⟩ := bindReturned _ _ _ h1
        simp at h3
      · obtain ⟨⟨r, br, err⟩, h0, h2⟩ := bindReturned _ _ _ h1
        dsimp only at h2
        split at h2
        · simp at h2
        · split at h2
          · simp at h2
          · split at h2
            · obtain ⟨_, _, h3⟩ := bindReturned _ _ _ h2
              simp at h3
            · split at h2
              · obtain ⟨_, _, h3⟩ := bindReturned _ _ _ h2
                simp at h3
              · simp only [Outcome.returned.injEq, Prod.mk.injEq] at h2
                rw [h2.2.1] at h0
                exact ofExecStateWithRetry _ _ _ _ h0
    have lookupSize : ∀ (l : List (String × States F B)) (k : String) (v : States F B),
        l.lookup k = some v → sizeOf v < sizeOf l := by
      intro l k v hl
      induction l with
      | nil => simp [List.lookup] at hl
      | cons p tail ih =>
        obtain ⟨a, b⟩ := p
        simp only [List.lookup] at hl
        split at hl
        · simp only [Option.some.injEq] at hl
          subst hl
          simp
          omega
        · have := ih hl
          simp
          omega
    have choicesSize : sizeOf state.Choices < sizeOf state := by
      cases state with
      | mk f b c => simp [State.Choices]
    obtain ⟨next, hnext⟩ := ofExecStateWithFilter
    have := lookupSize _ _ _ hnext
    omega
  · simp_wf

/-- Go `Workflow.execStates`: the named result `output` is nil at first. -/
def Workflow.execStates {F B Val : Type} (w : Engine F B Val) (states : States F B)
    (input : Option Val) : Outcome (Option Val × Option error) :=
  Workflow.execStatesFrom w states input none

/-- Go `Workflow.exec`, on the states `w.States` of the workflow. -/
def Workflow.exec {F B Val : Type} (w : Engine F B Val) (states : States F B)
    (input : Option Val) : Outcome (Option Val × Option error) :=
  (Workflow.execStates w states input).bind fun (o, err) =>
    if err ≠ none then (Workflow.errorLog w).bind fun _ => .returned (none, err)
    else .returned (o, none)

/-- The call that the type switch of `Workflow.eval` makes for the state: the
evaluating method of its kind on its body, and none for a choice state or a body of
another type. -/
def Workflow.evalKind {F B Val : Type} (w : Engine F B Val) (state : State F B)
    (input : Option Val) : Option (Outcome (Option Val × Option error)) :=
  match state.Body with
  | .FailState body => some (w.evalFail body input)
  | .MapState body => some (w.evalMap body input)
  | .ParallelState body => some (w.evalParallel body input)
  | .PassState body => some (w.evalPass body input)
  | .SucceedState body => some (w.evalSucceed body input)
  | .TaskState body => some (w.evalTask body input)
  | .WaitState body => some (w.evalWait body input)
  | _ => none

/-- The traversal of `states` from the input `v` comes to evaluate the state `s`
on the raw input `v'`, with `rest` the states that follow `s` in its sequence: every
step before it has returned an output and no error, each output being the raw input
of the next step, in the same sequence or, after a step that returned a branch, in
that branch. -/
inductive Workflow.Arrives {F B Val : Type} (w : Engine F B Val) :
    States F B → Option Val → State F B → States F B → Option Val → Prop where
  | here (state : State F B) (rest : States F B) (v : Option Val) :
      Workflow.Arrives w (state :: rest) v state rest v
  | next (state : State F B) (states : States F B) (v out : Option Val)
      (s : State F B) (rest : States F B) (v' : Option Val)
      (hstep : Workflow.execStateWithFilter w state v = .returned (out, none, none))
      (hrest : Workflow.Arrives w states out s rest v') :
      Workflow.Arrives w (state :: states) v s rest v'
  | branch (state : State F B) (states branch : States F B) (v out : Option Val)
      (s : State F B) (rest : States F B) (v' : Option Val)
      (hstep : Workflow.execStateWithFilter w state v = .returned (out, some branch, none))
      (hrest : Workflow.Arrives w branch out s rest v') :
      Workflow.Arrives w (state :: states) v s rest v'

/-- The steps of `states` from the input `v` all return an output, no branch and no
error, each output being the raw input of the next step; `v'` is the last output
(`v` itself when there is no state). -/
inductive Workflow.Threads {F B Val : Type} (w : Engine F B Val) :
    States F B → Option Val → Option Val → Prop where
  | nil (v : Option Val) : Workflow.Threads w [] v v
  | cons (state : State F B) (states : States F B) (v out v' : Option Val)
      (hstep : Workflow.execStateWithFilter w state v = .returned (out, none, none))
      (hrest : Workflow.Threads w states out v') :
      Workflow.Threads w (state :: states) v v'

/-! ## Samples for the traversal -/

/-- A sample of what the traversal calls, where values and bodies are texts and the
fields of a state are its `InputPath`. The input filter lets the input through when
there is no `InputPath` and fails otherwise; result composition and the output
filter let their value through. A choice matches the key written in its body, with
its input as output; `Fail` and `Succeed` raise the terminal signal, with their
input as output; `Pass` returns the text of its body; `Task` fails with
`ErrInvalidTaskInput`; `Map`, `Parallel` and `Wait` return their input. -/
def sampleEngine (fatalReturns : Bool) : Engine String String String where
  GenerateEffectiveInput := fun state rawinput =>
    if state.Fields = "" then (rawinput, none)
    else (none, some (error.Errorf "InputPath is not found"))
  GenerateEffectiveResult := fun _ _ result => (result, none)
  FilterByOutputPath := fun _ result => (result, none)
  evalChoice := fun body input => .returned (body, input, none)
  evalFail := fun _ input => .returned (input, some error.ErrStateMachineTerminated)
  evalMap := fun _ input => .returned (input, none)
  evalParallel := fun _ input => .returned (input, none)
  evalPass := fun body _ => .returned (some body, none)
  evalSucceed := fun _ input => .returned (input, some error.ErrStateMachineTerminated)
  evalTask := fun _ _ => .returned (none, some error.ErrInvalidTaskInput)
  evalWait := fun _ input => .returned (input, none)
  fatalReturns := fatalReturns

/-- The sample engine, but a choice raises the terminal signal and the output filter
gives the text `filtered` whatever it is given. -/
def sampleTerminalChoice : Engine String String String :=
  { sampleEngine true with
    evalChoice := fun body input => .returned (body, input, some error.ErrStateMachineTerminated)
    FilterByOutputPath := fun _ _ => (some "filtered", none) }

/-- A state with the given body, no `InputPath` and an empty table of branches. -/
def sampleState (body : StateBody String) : State String String :=
  State.mk "" body []

/-- A choice state that matches `key`, with the given table of branches. -/
def sampleChoice (key : String) (choices : List (String × States String String)) :
    State String String :=
  State.mk "" (StateBody.ChoiceState key) choices

/-- Equality of two `Except` values is decidable when it is for errors and results. -/
instance instDecidableEqExcept {ε α : Type} [DecidableEq ε] [DecidableEq α] :
    DecidableEq (Except ε α) := fun a b =>
  match a, b with
  | .ok x, .ok y => if h : x = y then isTrue (by rw [h]) else isFalse (by intro h2; cases h2; exact h rfl)
  | .error x, .error y =>
    if h : x = y then isTrue (by rw [h]) else isFalse (by intro h2; cases h2; exact h rfl)
  | .ok _, .error _ => isFalse (by intro h; cases h)
  | .error _, .ok _ => isFalse (by intro h; cases h)

/-! ## A sample of the path library -/

/-- The text of a child or root fragment as the library writes it after the first
fragment; the other fragments are not rendered by the sample. -/
def sampleRender : Expr → String
  | [] => ""
  | Frag.Root :: rest => "$" ++ sampleRender rest
  | Frag.Child key :: rest => "." ++ key ++ sampleRender rest
  | _ :: rest => sampleRender rest

/-- A sample of the `jp` library: its answers on the few paths used as concrete
inputs below, and a syntax error on every other text. It only serves to evaluate
the statements at those inputs; the theorems hold for every library. -/
def sampleJP : JP where
  ParseString := fun text =>
    if text = "$" then .ok [Frag.Root]
    else if text = "$.a" then .ok [Frag.Root, Frag.Child "a"]
    else if text = "$.a.b" then .ok [Frag.Root, Frag.Child "a", Frag.Child "b"]
    else if text = "@.a" then .ok [Frag.At, Frag.Child "a"]
    else if text = "$[1:2]" then .ok [Frag.Root, Frag.Slice [1, 2]]
    else if text = "$[0,1]" then .ok [Frag.Root, Frag.Union [.inr 0, .inr 1]]
    else .error "parse error"
  String := sampleRender

/-! ## Samples and the refused inputs of the task resource -/

/-- A task state over a trivial `CommonState`, with the given `Resource` and every
other field empty. -/
def taskWithResource (Resource : String) : TaskState Unit where
  CommonState := ()
  Resource := Resource
  Parameters := none
  ResultPath := ""
  ResultSelector := none
  Retry := ""
  Catch := ""
  TimeoutSeconds := ""
  TimeoutSecondsPath := ""
  HeartbeatSeconds := ""
  HeartbeatSecondsPath := ""

/-- A sample system: `echo` is found at `/bin/echo` and writes its arguments, with
blanks between them, and a newline; no other executable is found. -/
def sampleOS : OS where
  LookPath := fun name =>
    if name = "echo" then .ok "/bin/echo" else .error "executable file not found in $PATH"
  Output := fun exe args =>
    if exe = "/bin/echo" then .ok (Join args " " ++ "\n") else .error "exit status 1"

/-- The input of a `script` task that the code refuses: it is not an object, or its
`args` field is not an array, or an element of that array is not a string. -/
def InvalidScriptInput (input : Node) : Prop :=
  (∀ fields, input ≠ Node.ObjectNode fields) ∨
    ∃ fields a, input = Node.ObjectNode fields ∧ fields.lookup "args" = some a ∧
      ((∀ elems, a ≠ Node.ArrayNode elems) ∨
        ∃ elems, a = Node.ArrayNode elems ∧ ∃ x ∈ elems, ∀ str, x ≠ Node.StringNode str)

/-! ## Samples for the pass state -/

/-- A pass state over a trivial `CommonState`, with the given `Result`, no
`ResultPath` and no `Parameters`. -/
def passWithResult (Result : String) : PassState Unit where
  CommonState := ()
  Result := Result
  ResultPath := ""
  Parameters := ""

/-- A sample of the common transition: no next state, the input as output, no
error. -/
def samplePassThrough : CommonTransition Unit Unit :=
  fun _ _ r _ _ _ => ("", some r, none)

/-! ### Facts about strings -/

theorem string_mk_eq_empty_iff (l : List Char) : String.mk l = "" ↔ l = [] := by
  constructor
  · intro h
    have hd := congrArg String.data h
    simpa using hd
  · rintro rfl
    rfl

/-! ### Facts about the path evaluator -/

theorem hasPrefix_dollars_append (rest : String) : HasPrefix ("$$" ++ rest) "$$" = true := by
  simp [HasPrefix, String.data_append, List.isPrefixOf]

theorem trimPrefix_dollars_append (rest : String) :
    TrimPrefix ("$$" ++ rest) "$" = "$" ++ rest := by
  have h : HasPrefix ("$$" ++ rest) "$" = true := by
    simp [HasPrefix, String.data_append, List.isPrefixOf]
  simp only [TrimPrefix, h, if_true]
  apply String.ext
  simp [String.data_append]

theorem parsedText_context (rest : String) : parsedText ("$$" ++ rest) = "$" ++ rest := by
  simp [parsedText, hasPrefix_dollars_append, trimPrefix_dollars_append]

theorem parsedText_plain (path : String) (h : HasPrefix path "$$" = false) :
    parsedText path = path := by
  simp [parsedText, h]

/-- The body of `NewReferencePath` after the prefix test: the parser runs on
`parsedText path`, and the flag is the outcome of the prefix test. -/
theorem NewReferencePath_eq (jp : JP) (path : String) :
    NewReferencePath jp path =
      match jp.ParseString (parsedText path) with
      | .error msg => (referencePath.zero, some (error.external msg))
      | .ok p =>
        if p.any Frag.isForbidden then (referencePath.zero, some error.ErrNotReferencePath)
        else ({ Expr := p, IsContextPath := HasPrefix path "$$" }, none) := by
  rfl

theorem NewReferencePath_of_error (jp : JP) (path msg : String)
    (h : jp.ParseString (parsedText path) = .error msg) :
    NewReferencePath jp path = (referencePath.zero, some (error.external msg)) := by
  have key := NewReferencePath_eq jp path
  rw [h] at key
  exact key

theorem NewReferencePath_of_ok (jp : JP) (path : String) (p : Expr)
    (h : jp.ParseString (parsedText path) = .ok p) :
    NewReferencePath jp path =
      if p.any Frag.isForbidden then (referencePath.zero, some error.ErrNotReferencePath)
      else ({ Expr := p, IsContextPath := HasPrefix path "$$" }, none) := by
  have key := NewReferencePath_eq jp path
  rw [h] at key
  exact key

/-- The type switch, as a statement about constructors. -/
theorem isForbidden_iff (f : Frag) :
    f.isForbidden = true ↔
      f = Frag.At ∨ (∃ m, f = Frag.Union m) ∨ (∃ b, f = Frag.Slice b) ∨ (∃ s, f = Frag.Filter s) := by
  cases f <;> simp [Frag.isForbidden]

/-- No fragment of an accepted path is of a refused kind. -/
theorem NewReferencePath_ok_inv (jp : JP) (path : String) (r : referencePath)
    (h : NewReferencePath jp path = (r, none)) :
    jp.ParseString (parsedText path) = .ok r.Expr ∧ r.Expr.any Frag.isForbidden = false ∧
      r.IsContextPath = HasPrefix path "$$" := by
  cases hp : jp.ParseString (parsedText path) with
  | error msg =>
    rw [NewReferencePath_of_error jp path msg hp] at h
    simp at h
  | ok p =>
    rw [NewReferencePath_of_ok jp path p hp] at h
    by_cases hf : p.any Frag.isForbidden = true
    · rw [if_pos hf] at h
      simp at h
    · rw [if_neg hf] at h
      have hr : r = { Expr := p, IsContextPath := HasPrefix path "$$" } :=
        (congrArg Prod.fst h).symm
      subst hr
      exact ⟨rfl, Bool.eq_false_iff.2 hf, rfl⟩

/-- C1 (as amended). For every library and every path `p` on which
`NewReferencePath` succeeds with `r`: when the library parses its own rendering of
`r.Expr` back to `r.Expr`, and that rendering does not begin with `$$`, then parsing
the text of `r.String()` again succeeds with the same selector expression and with
`IsContextPath` false. So the result is `r` itself when `p` does not begin with
`$$`, and differs from `r` in the flag when it does. -/
theorem NewReferencePath_String_roundtrip (jp : JP) (p : String) (r : referencePath)
    (h : NewReferencePath jp p = (r, none))
    (hlib : jp.ParseString (jp.String r.Expr) = .ok r.Expr)
    (hroot : HasPrefix (jp.String r.Expr) "$$" = false) :
    NewReferencePath jp (r.String jp) = ({ Expr := r.Expr, IsContextPath := false }, none) ∧
      (HasPrefix p "$$" = false → NewReferencePath jp (r.String jp) = (r, none)) ∧
      (HasPrefix p "$$" = true → NewReferencePath jp (r.String jp) ≠ (r, none)) := by
  obtain ⟨_, hf, hflag⟩ := NewReferencePath_ok_inv jp p r h
  have key : NewReferencePath jp (r.String jp) =
      ({ Expr := r.Expr, IsContextPath := false }, none) := by
    have hp : jp.ParseString (parsedText (r.String jp)) = .ok r.Expr := by
      simp only [referencePath.String, parsedText_plain _ hroot, hlib]
    rw [NewReferencePath_of_ok jp _ _ hp, hf]
    simp only [referencePath.String, hroot]
    simp
  refine ⟨key, ?_, ?_⟩
  · intro hp
    rw [key]
    rw [hp] at hflag
    cases r
    simp_all
  · intro hp hEq
    rw [key] at hEq
    rw [hp] at hflag
    cases r
    simp_all

/-- C1, an instance of the amended statement: the path `$.a` comes back unchanged,
flag included. -/
theorem NewReferencePath_String_roundtrip_witness :
    NewReferencePath sampleJP (referencePath.String sampleJP
        { Expr := [Frag.Root, Frag.Child "a"], IsContextPath := false }) =
      ({ Expr := [Frag.Root, Frag.Child "a"], IsContextPath := false }, none) :=
  (NewReferencePath_String_roundtrip sampleJP "$.a"
    { Expr := [Frag.Root, Frag.Child "a"], IsContextPath := false }
    (by decide) (by decide) (by decide)).1

/-- C1, refuted as stated at the path `$$.a`: it is accepted with selector `$.a` and
`IsContextPath` true, its rendering is `$.a`, and parsing that text again gives
`IsContextPath` false. -/
theorem NewReferencePath_String_roundtrip_drops_context_flag :
    NewReferencePath sampleJP "$$.a" =
        ({ Expr := [Frag.Root, Frag.Child "a"], IsContextPath := true }, none) ∧
      referencePath.String sampleJP (NewReferencePath sampleJP "$$.a").1 = "$.a" ∧
      NewReferencePath sampleJP
          (referencePath.String sampleJP (NewReferencePath sampleJP "$$.a").1) =
        ({ Expr := [Frag.Root, Frag.Child "a"], IsContextPath := false }, none) ∧
      (NewReferencePath sampleJP
          (referencePath.String sampleJP (NewReferencePath sampleJP "$$.a").1)).1.IsContextPath ≠
        (NewReferencePath sampleJP "$$.a").1.IsContextPath := by
  decide

/-- C2. For every path whose parsed text the library accepts with expression `e`:
`NewReferencePath` returns the zero reference path with `ErrNotReferencePath` exactly
when some fragment of `e` is a current-object, union, slice or filter fragment; and
when no fragment is of those kinds it returns a nil error and a reference path whose
`Expr` is `e`. -/
theorem NewReferencePath_refuses_iff (jp : JP) (path : String) (e : Expr)
    (h : jp.ParseString (parsedText path) = .ok e) :
    (NewReferencePath jp path = (referencePath.zero, some error.ErrNotReferencePath) ↔
        ∃ f ∈ e, f = Frag.At ∨ (∃ m, f = Frag.Union m) ∨ (∃ b, f = Frag.Slice b) ∨
          (∃ s, f = Frag.Filter s)) ∧
      ((¬ ∃ f ∈ e, f = Frag.At ∨ (∃ m, f = Frag.Union m) ∨ (∃ b, f = Frag.Slice b) ∨
          (∃ s, f = Frag.Filter s)) →
        (NewReferencePath jp path).2 = none ∧ (NewReferencePath jp path).1.Expr = e) := by
  rw [NewReferencePath_of_ok jp path e h]
  have hany : e.any Frag.isForbidden = true ↔
      ∃ f ∈ e, f = Frag.At ∨ (∃ m, f = Frag.Union m) ∨ (∃ b, f = Frag.Slice b) ∨
        (∃ s, f = Frag.Filter s) := by
    rw [List.any_eq_true]
    constructor
    · rintro ⟨f, hf, hk⟩
      exact ⟨f, hf, (isForbidden_iff f).1 hk⟩
    · rintro ⟨f, hf, hk⟩
      exact ⟨f, hf, (isForbidden_iff f).2 hk⟩
  by_cases hf : e.any Frag.isForbidden = true
  · have hex := hany.1 hf
    rw [if_pos hf]
    exact ⟨⟨fun _ => hex, fun _ => rfl⟩, fun hno => absurd hex hno⟩
  · have hno := fun hex => hf (hany.2 hex)
    rw [if_neg hf]
    refine ⟨⟨fun hEq => ?_, fun hex => absurd hex hno⟩, fun _ => ⟨rfl, rfl⟩⟩
    have h2 := congrArg Prod.snd hEq
    simp at h2

/-- C2, at the path `$[1:2]`: a slice fragment, so the zero reference path and
`ErrNotReferencePath`. -/
theorem NewReferencePath_refuses_iff_witness :
    sampleJP.ParseString (parsedText "$[1:2]") = .ok [Frag.Root, Frag.Slice [1, 2]] ∧
      NewReferencePath sampleJP "$[1:2]" =
        (referencePath.zero, some error.ErrNotReferencePath) :=
  ⟨by decide,
    (NewReferencePath_refuses_iff sampleJP "$[1:2]" [Frag.Root, Frag.Slice [1, 2]]
      (by decide)).1.2 ⟨Frag.Slice [1, 2], by simp, Or.inr (Or.inr (Or.inl ⟨[1, 2], rfl⟩))⟩⟩

/-- C3 (as amended). For every path: when the library accepts the text handed to it
and finds in it a current-object, union, slice or filter fragment, `NewReferencePath`
fails with `ErrNotReferencePath`, with the zero reference path; when the library
rejects that text, `NewReferencePath` returns the syntax error of the library as it
is, whatever the text holds. So the error returned is a syntax error exactly when
the library rejects the text, and `ErrNotReferencePath` exactly when the library
accepts it with a fragment of one of the four kinds. -/
theorem NewReferencePath_refused_kind_or_syntax_error (jp : JP) (path : String) :
    (∀ e, jp.ParseString (parsedText path) = .ok e →
        (∃ f ∈ e, f = Frag.At ∨ (∃ m, f = Frag.Union m) ∨ (∃ b, f = Frag.Slice b) ∨
          (∃ s, f = Frag.Filter s)) →
        NewReferencePath jp path = (referencePath.zero, some error.ErrNotReferencePath)) ∧
      (∀ msg, jp.ParseString (parsedText path) = .error msg →
        NewReferencePath jp path = (referencePath.zero, some (error.external msg))) ∧
      (∀ msg, (NewReferencePath jp path).2 = some (error.external msg) ↔
        jp.ParseString (parsedText path) = .error msg) ∧
      ((NewReferencePath jp path).2 = some error.ErrNotReferencePath ↔
        ∃ e, jp.ParseString (parsedText path) = .ok e ∧
          ∃ f ∈ e, f = Frag.At ∨ (∃ m, f = Frag.Union m) ∨ (∃ b, f = Frag.Slice b) ∨
            (∃ s, f = Frag.Filter s)) := by
  have hany : ∀ e : Expr, e.any Frag.isForbidden = true ↔
      ∃ f ∈ e, f = Frag.At ∨ (∃ m, f = Frag.Union m) ∨ (∃ b, f = Frag.Slice b) ∨
        (∃ s, f = Frag.Filter s) := by
    intro e
    rw [List.any_eq_true]
    constructor
    · rintro ⟨f, hf, hk⟩
      exact ⟨f, hf, (isForbidden_iff f).1 hk⟩
    · rintro ⟨f, hf, hk⟩
      exact ⟨f, hf, (isForbidden_iff f).2 hk⟩
  refine ⟨?_, ?_, ?_, ?_⟩
  · intro e he hfrag
    rw [NewReferencePath_of_ok jp path e he, if_pos ((hany e).2 hfrag)]
  · intro msg hmsg
    exact NewReferencePath_of_error jp path msg hmsg
  · intro msg
    cases hp : jp.ParseString (parsedText path) with
    | error m =>
      rw [NewReferencePath_of_error jp path m hp]
      simp
    | ok e =>
      rw [NewReferencePath_of_ok jp path e hp]
      by_cases hf : e.any Frag.isForbidden = true
      · rw [if_pos hf]
        simp
      · rw [if_neg hf]
        simp
  · cases hp : jp.ParseString (parsedText path) with
    | error m =>
      rw [NewReferencePath_of_error jp path m hp]
      simp
    | ok e =>
      rw [NewReferencePath_of_ok jp path e hp]
      by_cases hf : e.any Frag.isForbidden = true
      · rw [if_pos hf]
        simp only [true_iff]
        exact ⟨e, rfl, (hany e).1 hf⟩
      · rw [if_neg hf]
        simp only [reduceCtorEq, false_iff]
        rintro ⟨e', he', hfrag⟩
        cases he'
        exact hf ((hany e).2 hfrag)

/-- C3, at the path `@.a`, which starts with a current-object fragment. -/
theorem NewReferencePath_refused_kind_or_syntax_error_witness :
    sampleJP.ParseString (parsedText "@.a") = .ok [Frag.At, Frag.Child "a"] ∧
      NewReferencePath sampleJP "@.a" = (referencePath.zero, some error.ErrNotReferencePath) :=
  ⟨by decide,
    (NewReferencePath_refused_kind_or_syntax_error sampleJP "@.a").1 [Frag.At, Frag.Child "a"]
      (by decide) ⟨Frag.At, by simp, Or.inl rfl⟩⟩

/-- C3, refuted as stated at the path made of `$[1:2]`, whose second fragment is a
slice, followed by an opening bracket that nothing closes: the library rejects the
text, and `NewReferencePath` returns that syntax error, not `ErrNotReferencePath`. -/
theorem NewReferencePath_syntax_error_with_slice :
    sampleJP.ParseString "$[1:2]" = .ok [Frag.Root, Frag.Slice [1, 2]] ∧
      "$[1:2][" = "$[1:2]" ++ "[" ∧
      NewReferencePath sampleJP "$[1:2][" =
        (referencePath.zero, some (error.external "parse error")) ∧
      (NewReferencePath sampleJP "$[1:2][").2 ≠ some error.ErrNotReferencePath := by
  decide

/-- C4. For every `rest`, `NewReferencePath` on `$$` followed by `rest` parses `$`
followed by `rest`: a syntax error of that text is returned as it is, and on success
the `Expr` is the parse of that text and `IsContextPath` is true. For every path that
does not begin with `$$` the path itself is parsed, and on success `IsContextPath` is
false. -/
theorem NewReferencePath_context_prefix (jp : JP) :
    (∀ rest : String,
        (∀ msg, jp.ParseString ("$" ++ rest) = .error msg →
          NewReferencePath jp ("$$" ++ rest) = (referencePath.zero, some (error.external msg))) ∧
        (∀ r, NewReferencePath jp ("$$" ++ rest) = (r, none) →
          jp.ParseString ("$" ++ rest) = .ok r.Expr ∧ r.IsContextPath = true)) ∧
      (∀ path : String, HasPrefix path "$$" = false →
        (∀ msg, jp.ParseString path = .error msg →
          NewReferencePath jp path = (referencePath.zero, some (error.external msg))) ∧
        (∀ r, NewReferencePath jp path = (r, none) →
          jp.ParseString path = .ok r.Expr ∧ r.IsContextPath = false)) := by
  constructor
  · intro rest
    constructor
    · intro msg hmsg
      exact NewReferencePath_of_error jp _ msg (by rw [parsedText_context]; exact hmsg)
    · intro r hr
      obtain ⟨hp, _, hflag⟩ := NewReferencePath_ok_inv jp _ r hr
      rw [parsedText_context] at hp
      rw [hasPrefix_dollars_append] at hflag
      exact ⟨hp, hflag⟩
  · intro path hpath
    constructor
    · intro msg hmsg
      exact NewReferencePath_of_error jp _ msg (by rw [parsedText_plain _ hpath]; exact hmsg)
    · intro r hr
      obtain ⟨hp, _, hflag⟩ := NewReferencePath_ok_inv jp _ r hr
      rw [parsedText_plain _ hpath] at hp
      rw [hpath] at hflag
      exact ⟨hp, hflag⟩

/-! ### Facts about the task resource -/

theorem collectArgs_strings (strs : List String) (acc : List String) :
    collectArgs (strs.map Node.StringNode) acc = some (acc ++ strs) := by
  induction strs generalizing acc with
  | nil => simp [collectArgs]
  | cons a rest ih => simp [collectArgs, Node.IsString, Node.MustString, ih]

theorem collectArgs_eq_none_iff (elems : List Node) (acc : List String) :
    collectArgs elems acc = none ↔ ∃ x ∈ elems, ∀ str, x ≠ Node.StringNode str := by
  induction elems generalizing acc with
  | nil => simp [collectArgs]
  | cons v vs ih =>
    cases v <;> simp [collectArgs, Node.IsString, ih]

/-- A `script` resource on an input that is not an object. -/
theorem exec_script_not_object (os : OS) (name : String) (input : Node)
    (h : ∀ fields, input ≠ Node.ObjectNode fields) :
    resource.exec os ⟨"script", name⟩ input =
      (.returned (none, some error.ErrInvalidTaskInput), []) := by
  cases input <;> simp [resource.exec, Node.IsObject] at h ⊢

/-- A `script` resource on an object whose `args` cannot be read as strings. -/
theorem exec_script_bad_args (os : OS) (name : String) (fields : List (String × Node))
    (a : Node) (ha : fields.lookup "args" = some a)
    (hbad : (∀ elems, a ≠ Node.ArrayNode elems) ∨
      ∃ elems, a = Node.ArrayNode elems ∧ ∃ x ∈ elems, ∀ str, x ≠ Node.StringNode str) :
    resource.exec os ⟨"script", name⟩ (Node.ObjectNode fields) =
      (.returned (none, some error.ErrInvalidTaskInput), []) := by
  rcases hbad with hno | ⟨elems, rfl, hx⟩
  · cases a <;> simp [resource.exec, Node.IsObject, Node.MustObject, ha, Node.IsArray] at hno ⊢
  · have hnone := (collectArgs_eq_none_iff elems []).2 hx
    simp [resource.exec, Node.IsObject, Node.MustObject, ha, Node.IsArray, Node.MustArray, hnone]

/-- A `script` resource once its arguments are read: the executable is looked up
and run, and its standard output is wrapped. -/
theorem exec_script_run (os : OS) (name : String) (fields : List (String × Node))
    (args : List String)
    (hargs : fields.lookup "args" = none ∧ args = [] ∨
      fields.lookup "args" = some (Node.ArrayNode (args.map Node.StringNode))) :
    resource.exec os ⟨"script", name⟩ (Node.ObjectNode fields) =
      match os.LookPath name with
      | .error msg => (.returned (none, some (error.external msg)), [Call.LookPath name])
      | .ok exe =>
        match os.Output exe args with
        | .error msg =>
          (.returned (none, some (error.external msg)), [Call.LookPath name, Call.Run exe args])
        | .ok out =>
          (.returned (some (Node.ObjectNode [("result", Node.StringNode out)]), none),
            [Call.LookPath name, Call.Run exe args]) := by
  have hread : (match fields.lookup "args" with
      | some input => if !input.IsArray then none else collectArgs input.MustArray []
      | none => some []) = some args := by
    rcases hargs with ⟨h, rfl⟩ | h
    · rw [h]
    · rw [h]
      simp [Node.IsArray, Node.MustArray, collectArgs_strings]
  simp only [resource.exec, Node.IsObject, Node.MustObject, if_true, Bool.not_true,
    Bool.false_eq_true, if_false, hread, resource.execScript]
  cases os.LookPath name with
  | error msg => rfl
  | ok exe =>
    dsimp only
    cases os.Output exe args with
    | error msg => rfl
    | ok out => rfl

/-- An object whose `args`, when there is one, is an array of strings: the arguments
it stands for. -/
theorem valid_script_input_args (fields : List (String × Node))
    (h : ¬ InvalidScriptInput (Node.ObjectNode fields)) :
    ∃ args, fields.lookup "args" = none ∧ args = [] ∨
      fields.lookup "args" = some (Node.ArrayNode (args.map Node.StringNode)) := by
  cases ha : fields.lookup "args" with
  | none => exact ⟨[], Or.inl ⟨rfl, rfl⟩⟩
  | some a =>
    have hgood : ¬ ((∀ elems, a ≠ Node.ArrayNode elems) ∨
        ∃ elems, a = Node.ArrayNode elems ∧ ∃ x ∈ elems, ∀ str, x ≠ Node.StringNode str) :=
      fun hbad => h (Or.inr ⟨fields, a, rfl, ha, hbad⟩)
    push_neg at hgood
    obtain ⟨⟨elems, rfl⟩, hall⟩ := hgood
    have hstr : ∀ x ∈ elems, ∃ str, x = Node.StringNode str := fun x hx => hall elems rfl x hx
    refine ⟨elems.map Node.MustString, Or.inr ?_⟩
    congr 2
    rw [List.map_map]
    symm
    calc List.map (Node.StringNode ∘ Node.MustString) elems
        = List.map id elems := by
          apply List.map_congr_left
          intro x hx
          obtain ⟨str, rfl⟩ := hstr x hx
          rfl
      _ = elems := List.map_id elems

/-! ### What `parseResource` computes

The pieces of the resource are those between its colons; the scheme is the first
piece and the name is the other pieces, written one after the other without the
colons that stood between them. -/

theorem splitChars_eq (sep : Char) (l : List Char) :
    splitChars sep l =
      l.takeWhile (fun c => c ≠ sep) ::
        (if sep ∈ l then splitChars sep ((l.dropWhile (fun c => c ≠ sep)).drop 1) else []) := by
  induction l with
  | nil => simp [splitChars]
  | cons c cs ih =>
    by_cases hc : c = sep
    · subst hc
      simp [splitChars]
    · have hmem : (sep ∈ c :: cs) ↔ sep ∈ cs := by
        simp [List.mem_cons, Ne.symm hc]
      rw [splitChars, if_neg hc, ih]
      simp [List.takeWhile_cons, List.dropWhile_cons, hc, hmem]

theorem splitChars_flatten (sep : Char) (l : List Char) :
    (splitChars sep l).flatten = l.filter (fun c => c ≠ sep) := by
  induction l with
  | nil => simp [splitChars]
  | cons c cs ih =>
    by_cases hc : c = sep
    · subst hc
      simp [splitChars, ih]
    · rw [splitChars, if_neg hc]
      cases hs : splitChars sep cs with
      | nil =>
        rw [hs] at ih
        simp at ih ⊢
        simpa [List.filter_cons, hc] using ih
      | cons piece pieces =>
        rw [hs] at ih
        simp at ih ⊢
        simpa [List.filter_cons, hc] using ih

theorem Join_empty_sep (pieces : List (List Char)) :
    Join (pieces.map String.mk) "" = String.mk pieces.flatten := by
  induction pieces with
  | nil => rfl
  | cons a rest ih =>
    cases rest with
    | nil => simp [Join]
    | cons b rest2 =>
      rw [List.map_cons, List.map_cons, Join, ← List.map_cons, ih]
      apply String.ext
      simp [String.data_append]

theorem Trim_empty_cutset (s : String) : Trim s "" = s := by
  have hdrop : ∀ l : List Char, l.dropWhile (fun c => "".data.contains c) = l := by
    intro l
    cases l with
    | nil => rfl
    | cons a rest => simp [List.dropWhile_cons]
  simp only [Trim, hdrop, List.reverse_reverse]

theorem parseResourceString_of_pieces (R : String) (head q : List Char)
    (qs : List (List Char)) (h : splitChars ':' R.data = head :: q :: qs) :
    parseResourceString R =
      if String.mk head = "" ∨ String.mk (q :: qs).flatten = "" then
        (none, some error.ErrInvalidTaskResource)
      else (some { typ := String.mk head, name := String.mk (q :: qs).flatten }, none) := by
  simp only [parseResourceString, Split, h, Trim_empty_cutset]
  cases qs with
  | nil => simp
  | cons q2 qs2 =>
    have hj := Join_empty_sep (q :: q2 :: qs2)
    simp only [List.map_cons] at hj
    simp [hj]

theorem parseResourceString_eq (R : String) :
    parseResourceString R =
      if ':' ∈ R.data ∧ schemePart R ≠ "" ∧
          String.mk ((namePart R).data.filter (fun c => c ≠ ':')) ≠ "" then
        (some { typ := schemePart R,
                name := String.mk ((namePart R).data.filter (fun c => c ≠ ':')) }, none)
      else (none, some error.ErrInvalidTaskResource) := by
  have hsplit := splitChars_eq ':' R.data
  by_cases hmem : ':' ∈ R.data
  · rw [if_pos hmem] at hsplit
    have hrest := splitChars_eq ':' (namePart R).data
    have hflat := splitChars_flatten ':' (namePart R).data
    have hname : (R.data.dropWhile (fun c => c ≠ ':')).drop 1 = (namePart R).data := rfl
    rw [hname] at hsplit
    generalize (if ':' ∈ (namePart R).data then
      splitChars ':' (((namePart R).data.dropWhile (fun c => c ≠ ':')).drop 1) else []) = qs
      at hrest
    rw [hrest] at hsplit hflat
    rw [parseResourceString_of_pieces R _ _ qs hsplit, hflat]
    have hscheme : String.mk (R.data.takeWhile (fun c => c ≠ ':')) = schemePart R := rfl
    rw [hscheme]
    by_cases h1 : schemePart R = ""
    · rw [if_pos (Or.inl h1), if_neg (fun hc => hc.2.1 h1)]
    · by_cases h2 : String.mk ((namePart R).data.filter (fun c => c ≠ ':')) = ""
      · rw [if_pos (Or.inr h2), if_neg (fun hc => hc.2.2 h2)]
      · rw [if_neg (fun hc => hc.elim h1 h2), if_pos ⟨hmem, h1, h2⟩]
  · rw [if_neg hmem] at hsplit
    simp [parseResourceString, Split, hsplit, hmem]

/-- When `parseResource` fails: no `:`, or nothing before the first `:`, or nothing
but `:` after it. -/
theorem parseResourceString_fails_iff (R : String) :
    parseResourceString R = (none, some error.ErrInvalidTaskResource) ↔
      ':' ∉ R.data ∨ schemePart R = "" ∨ ∀ c ∈ (namePart R).data, c = ':' := by
  have hname : String.mk ((namePart R).data.filter (fun c => c ≠ ':')) = "" ↔
      ∀ c ∈ (namePart R).data, c = ':' := by
    rw [string_mk_eq_empty_iff, List.filter_eq_nil_iff]
    simp
  rw [parseResourceString_eq]
  by_cases hc : ':' ∈ R.data ∧ schemePart R ≠ "" ∧
      String.mk ((namePart R).data.filter (fun c => c ≠ ':')) ≠ ""
  · rw [if_pos hc]
    constructor
    · intro h
      have h2 := congrArg Prod.snd h
      simp at h2
    · rintro (h | h | h)
      · exact absurd hc.1 h
      · exact absurd h hc.2.1
      · exact absurd (hname.2 h) hc.2.2
  · rw [if_neg hc]
    refine ⟨fun _ => ?_, fun _ => rfl⟩
    by_contra hno
    push_neg at hno
    exact hc ⟨hno.1, hno.2.1, fun h => by
      obtain ⟨c, hcm, hne⟩ := hno.2.2
      exact hne (hname.1 h c hcm)⟩

/-- C5, at the resource `a::`. The string has a `:`, its scheme part is `a` and its
name part, the text after the first `:`, is `:`; none is empty, and still
`parseResource` fails with `ErrInvalidTaskResource`: the pieces after the first are
joined with the empty string, which leaves an empty name. -/
theorem parseResource_rejects_colon_name :
    ':' ∈ "a::".data ∧ schemePart "a::" = "a" ∧ namePart "a::" = ":" ∧
      (taskWithResource "a::").parseResource = (none, some error.ErrInvalidTaskResource) := by
  decide

/-- C6 (as amended). For every input and every name, `resource.exec` with scheme
`command` or `curl` panics with a not-implemented message, before any call to the
system: it returns neither a result nor an error value. -/
theorem exec_command_curl_panics (os : OS) (name : String) (input : Node) :
    resource.exec os ⟨"command", name⟩ input =
        (.panicked "not implemented: Task state, resource type = command", []) ∧
      resource.exec os ⟨"curl", name⟩ input =
        (.panicked "not implemented: Task state, resource type = curl", []) := by
  constructor <;> simp [resource.exec]

/-- C6, refuted as stated for the resource `command:ls` on the empty object: the
call panics, so it does not return an error value (nor anything else). -/
theorem exec_command_returns_no_error :
    (resource.exec sampleOS ⟨"command", "ls"⟩ (Node.ObjectNode [])).1 =
        .panicked "not implemented: Task state, resource type = command" ∧
      ¬ ∃ out err, (resource.exec sampleOS ⟨"command", "ls"⟩ (Node.ObjectNode [])).1 =
        .returned (out, err) := by
  constructor
  · simp [resource.exec]
  · rintro ⟨out, err, h⟩
    simp [resource.exec] at h

/-- C7. For scheme `script` and every input, `resource.exec` returns
`ErrInvalidTaskInput` exactly when the input is not an object, or its `args` field is
not an array, or an element of that array is not a string; in that case no call is
made to look up or run the executable. An object without `args` is accepted: the
executable is looked up and, when found, run with no argument. -/
theorem exec_script_invalid_input_iff (os : OS) (name : String) (input : Node) :
    ((resource.exec os ⟨"script", name⟩ input).1 =
          .returned (none, some error.ErrInvalidTaskInput) ↔ InvalidScriptInput input) ∧
      (InvalidScriptInput input → (resource.exec os ⟨"script", name⟩ input).2 = []) ∧
      (∀ fields, input = Node.ObjectNode fields → fields.lookup "args" = none →
        ¬ InvalidScriptInput input ∧
        (resource.exec os ⟨"script", name⟩ input).2 =
          Call.LookPath name ::
            (match os.LookPath name with
             | .ok exe => [Call.Run exe []]
             | .error _ => [])) := by
  have hinvalid : InvalidScriptInput input →
      resource.exec os ⟨"script", name⟩ input =
        (.returned (none, some error.ErrInvalidTaskInput), []) := by
    rintro (hno | ⟨fields, a, rfl, ha, hbad⟩)
    · exact exec_script_not_object os name input hno
    · exact exec_script_bad_args os name fields a ha hbad
  have hvalid : ∀ fields, input = Node.ObjectNode fields → ∀ args,
      (fields.lookup "args" = none ∧ args = [] ∨
        fields.lookup "args" = some (Node.ArrayNode (args.map Node.StringNode))) →
      (resource.exec os ⟨"script", name⟩ input).1 ≠
          .returned (none, some error.ErrInvalidTaskInput) ∧
        (resource.exec os ⟨"script", name⟩ input).2 =
          Call.LookPath name ::
            (match os.LookPath name with
             | .ok exe => [Call.Run exe args]
             | .error _ => []) := by
    rintro fields rfl args hargs
    rw [exec_script_run os name fields args hargs]
    cases os.LookPath name with
    | error msg => simp
    | ok exe =>
      dsimp only
      cases os.Output exe args with
      | error msg => simp
      | ok out => simp
  refine ⟨⟨fun hret => ?_, fun hinv => by rw [hinvalid hinv]⟩,
    fun hinv => by rw [hinvalid hinv], ?_⟩
  · by_contra hgood
    have hobj : ∃ fields, input = Node.ObjectNode fields := by
      by_contra hno
      exact hgood (Or.inl (fun fields hEq => hno ⟨fields, hEq⟩))
    obtain ⟨fields, rfl⟩ := hobj
    obtain ⟨args, hargs⟩ := valid_script_input_args fields hgood
    exact (hvalid fields rfl args hargs).1 hret
  · intro fields hEq hnone
    have hrun := hvalid fields hEq [] (Or.inl ⟨hnone, rfl⟩)
    refine ⟨fun hinv => hrun.1 (by rw [hinvalid hinv]), hrun.2⟩

/-- C8. For scheme `script` and every object whose `args` is an array of the strings
`args`: when the executable is found and its run with `args`, in that order, succeeds
with standard output `out`, `resource.exec` returns a nil error and the object with
the single field `result`, the string `out`; when the lookup fails, or the run fails,
it returns that error and no output. -/
theorem exec_script_result (os : OS) (name : String) (fields : List (String × Node))
    (args : List String)
    (h : fields.lookup "args" = some (Node.ArrayNode (args.map Node.StringNode))) :
    (∀ exe out, os.LookPath name = .ok exe → os.Output exe args = .ok out →
        resource.exec os ⟨"script", name⟩ (Node.ObjectNode fields) =
          (.returned (some (Node.ObjectNode [("result", Node.StringNode out)]), none),
            [Call.LookPath name, Call.Run exe args])) ∧
      (∀ msg, os.LookPath name = .error msg →
        resource.exec os ⟨"script", name⟩ (Node.ObjectNode fields) =
          (.returned (none, some (error.external msg)), [Call.LookPath name])) ∧
      (∀ exe msg, os.LookPath name = .ok exe → os.Output exe args = .error msg →
        resource.exec os ⟨"script", name⟩ (Node.ObjectNode fields) =
          (.returned (none, some (error.external msg)),
            [Call.LookPath name, Call.Run exe args])) := by
  have hrun := exec_script_run os name fields args (Or.inr h)
  refine ⟨fun exe out hl ho => ?_, fun msg hl => ?_, fun exe msg hl ho => ?_⟩
  · rw [hrun, hl]
    dsimp only
    rw [ho]
  · rw [hrun, hl]
  · rw [hrun, hl]
    dsimp only
    rw [ho]

/-- C8, at the resource `script:echo` on the object with `args` the array of the one
string `hi`, on a system whose `echo` writes its arguments and a newline: the output
is the object with `result` the string `hi` and a newline. -/
theorem exec_script_result_witness :
    resource.exec sampleOS ⟨"script", "echo"⟩
        (Node.ObjectNode [("args", Node.ArrayNode [Node.StringNode "hi"])]) =
      (.returned (some (Node.ObjectNode [("result", Node.StringNode "hi\n")]), none),
        [Call.LookPath "echo", Call.Run "/bin/echo" ["hi"]]) :=
  (exec_script_result sampleOS "echo" [("args", Node.ArrayNode [Node.StringNode "hi"])]
    ["hi"] (by simp [List.lookup])).1 "/bin/echo" "hi\n" (by decide) (by decide)

/-! ### Facts about the pass state -/

/-- C9 (as amended). `PassState.Transition` returns what the common transition
returns for the state's common fields, the input, no parameters, the state's
`ResultPath` and no core function. The `Result` field is not read: two pass states
with the same common fields and the same `ResultPath` give, on every input, the same
next state, output and error, whatever their `Result`. -/
theorem PassState_Transition_ignores_Result {CS Ctx : Type} (common : CommonTransition CS Ctx)
    (s s' : PassState CS) (ctx : Ctx) (r : Node)
    (hcommon : s.CommonState = s'.CommonState) (hpath : s.ResultPath = s'.ResultPath) :
    s.Transition common ctx r = s'.Transition common ctx r ∧
      s.Transition common ctx r = common s.CommonState ctx r none s.ResultPath none := by
  refine ⟨?_, rfl⟩
  simp only [PassState.Transition, hcommon, hpath]

/-- C9, an instance: the pass state with `Result` the object with `a` set to 1 and
the pass state with no `Result` give the same on the empty object. -/
theorem PassState_Transition_ignores_Result_witness :
    (passWithResult "\x7b\"a\":1\x7d").Transition samplePassThrough () (Node.ObjectNode []) =
      (passWithResult "").Transition samplePassThrough () (Node.ObjectNode []) :=
  (PassState_Transition_ignores_Result samplePassThrough (passWithResult "\x7b\"a\":1\x7d")
    (passWithResult "") () (Node.ObjectNode []) rfl rfl).1

/-- C9, refuted as stated: whatever the common transition does, and however the text
of `Result` is read as a value (so long as the texts of the object with `a` set to 1
and of the object with `a` set to 2 are read as different values), the output cannot
be the literal `Result` for every pass state with a `Result` and no `ResultPath`: the
two states with these two results get the same output on the null input. -/
theorem PassState_Transition_output_not_Result :
    ¬ ∃ (common : CommonTransition Unit Unit) (lit : String → Node),
        lit "\x7b\"a\":1\x7d" ≠ lit "\x7b\"a\":2\x7d" ∧
        ∀ (s : PassState Unit) (r : Node), s.Result ≠ "" → s.ResultPath = "" →
          (s.Transition common () r).2.1 = some (lit s.Result) := by
  rintro ⟨common, lit, hne, hall⟩
  have h1 := hall (passWithResult "\x7b\"a\":1\x7d") Node.NullNode (by decide) rfl
  have h2 := hall (passWithResult "\x7b\"a\":2\x7d") Node.NullNode (by decide) rfl
  have hsame : ((passWithResult "\x7b\"a\":1\x7d").Transition common () Node.NullNode).2.1 =
      ((passWithResult "\x7b\"a\":2\x7d").Transition common () Node.NullNode).2.1 := rfl
  rw [h1, h2] at hsame
  exact hne (Option.some.inj hsame)

/-! ### Facts about the entry point -/

/-- `strings.TrimSpace` leaves nothing exactly of the texts made of spaces only. -/
theorem TrimSpace_eq_empty_iff (buf : String) :
    TrimSpace buf = "" ↔ ∀ c ∈ buf.data, IsSpace c = true := by
  unfold TrimSpace
  rw [string_mk_eq_empty_iff, List.reverse_eq_nil_iff, List.dropWhile_eq_nil_iff]
  constructor
  · intro h
    have hnil : buf.data.dropWhile IsSpace = [] := by
      by_contra hne
      have hhead := List.head_dropWhile_not IsSpace buf.data hne
      have hmem : (buf.data.dropWhile IsSpace).head hne ∈ (buf.data.dropWhile IsSpace).reverse :=
        List.mem_reverse.2 (List.head_mem hne)
      rw [h _ hmem] at hhead
      exact Bool.noConfusion hhead
    exact List.dropWhile_eq_nil_iff.1 hnil
  · intro h
    rw [List.dropWhile_eq_nil_iff.2 h]
    simp

theorem decodedText_blank (input : Option String)
    (h : input = none ∨ ∃ buf, input = some buf ∧ ∀ c ∈ buf.data, IsSpace c = true) :
    decodedText input = "\x7b\x7d" := by
  rcases h with rfl | ⟨buf, rfl, hall⟩
  · rfl
  · simp only [decodedText, (TrimSpace_eq_empty_iff buf).2 hall, if_true]
    rfl

theorem decodedText_not_blank (buf : String) (h : ∃ c ∈ buf.data, IsSpace c = false) :
    decodedText (some buf) = buf := by
  obtain ⟨c, hc, hns⟩ := h
  have hne : TrimSpace buf ≠ "" := by
    intro hEq
    rw [(TrimSpace_eq_empty_iff buf).1 hEq c hc] at hns
    exact Bool.noConfusion hns
  simp only [decodedText, hne, if_false]

/-- `Exec` reads its input through `decodedText` only. -/
theorem Exec_congr_input {W Val : Type} (rt : Runtime W Val) (w : W) (input input' : Option String)
    (h : decodedText input = decodedText input') : Exec rt w input = Exec rt w input' := by
  simp only [Exec, h]

/-- `Exec` asks the decoder about `decodedText input` only. -/
theorem Exec_congr_decode {W Val : Type} (rt : Runtime W Val) (w : W) (input : Option String)
    (decode : String → Except String Val)
    (h : decode (decodedText input) = rt.Unmarshal (decodedText input)) :
    Exec { rt with Unmarshal := decode } w input = Exec rt w input := by
  simp only [Exec, errorLogThenReturn, h]

/-- C10. In every runtime and for every workflow: on an input buffer that is nil, or
whose text is empty or made of spaces only, `Exec` ends exactly as it does on the
buffer with text `{}`, and the decoder is asked about the text `{}` alone; on a
buffer with a character that is not a space, the decoder is asked about the text of
the buffer alone. (A decoder that answers alike on that one text gives the same
end.) -/
theorem Exec_blank_input {W Val : Type} (rt : Runtime W Val) (w : W) :
    (∀ input : Option String,
        (input = none ∨ ∃ buf, input = some buf ∧ ∀ c ∈ buf.data, IsSpace c = true) →
        Exec rt w input = Exec rt w (some "\x7b\x7d") ∧
        ∀ decode : String → Except String Val, decode "\x7b\x7d" = rt.Unmarshal "\x7b\x7d" →
          Exec { rt with Unmarshal := decode } w input = Exec rt w input) ∧
      (∀ buf : String, (∃ c ∈ buf.data, IsSpace c = false) →
        ∀ decode : String → Except String Val, decode buf = rt.Unmarshal buf →
          Exec { rt with Unmarshal := decode } w (some buf) = Exec rt w (some buf)) := by
  constructor
  · intro input hblank
    have htext := decodedText_blank input hblank
    constructor
    · apply Exec_congr_input
      rw [htext]
      decide
    · intro decode hdecode
      apply Exec_congr_decode
      rw [htext]
      exact hdecode
  · intro buf hbuf decode hdecode
    apply Exec_congr_decode
    rw [decodedText_not_blank buf hbuf]
    exact hdecode

/-! ### Facts about the traversal -/

theorem Outcome.bind_eq_returned {α β : Type} (o : Outcome α) (f : α → Outcome β) (y : β)
    (h : o.bind f = .returned y) : ∃ x, o = .returned x ∧ f x = .returned y := by
  cases o with
  | returned v => exact ⟨v, rfl, h⟩
  | panicked msg => simp [Outcome.bind] at h
  | exited code => simp [Outcome.bind] at h

theorem execStatesFrom_nil {F B Val : Type} (w : Engine F B Val) (input output : Option Val) :
    Workflow.execStatesFrom w [] input output = .returned (output, none) := by
  rw [Workflow.execStatesFrom]

/-- One turn of the loop of `execStates`. -/
theorem execStatesFrom_cons {F B Val : Type} (w : Engine F B Val) (state : State F B)
    (rest : States F B) (input output : Option Val) :
    Workflow.execStatesFrom w (state :: rest) input output =
      match Workflow.execStateWithFilter w state input with
      | .panicked msg => .panicked msg
      | .exited code => .exited code
      | .returned (out, branch, err) =>
        if isTerminated err then .returned (out, none)
        else if err ≠ none then .returned (none, err)
        else
          match branch with
          | some branch => Workflow.execStatesFrom w branch out none
          | none => Workflow.execStatesFrom w rest out out := by
  rw [Workflow.execStatesFrom]
  split
  · rename_i heq
    conv_rhs => rw [heq]
  · rename_i heq
    conv_rhs => rw [heq]
  · rename_i out branch err heq
    conv_rhs => rw [heq]
    cases branch <;> rfl

/-- The turn of a step that returns no branch and no error: the loop goes on with
the states that follow, on the output of the step. -/
theorem execStatesFrom_step_next {F B Val : Type} (w : Engine F B Val) (state : State F B)
    (rest : States F B) (input output out : Option Val)
    (h : Workflow.execStateWithFilter w state input = .returned (out, none, none)) :
    Workflow.execStatesFrom w (state :: rest) input output =
      Workflow.execStatesFrom w rest out out := by
  rw [execStatesFrom_cons, h]
  simp [isTerminated]

/-- The turn of a step that returns a branch and no error: the result is that of
`execStates` on the branch and the output of the step. -/
theorem execStatesFrom_step_branch {F B Val : Type} (w : Engine F B Val) (state : State F B)
    (rest branch : States F B) (input output out : Option Val)
    (h : Workflow.execStateWithFilter w state input = .returned (out, some branch, none)) :
    Workflow.execStatesFrom w (state :: rest) input output =
      Workflow.execStates w branch out := by
  rw [execStatesFrom_cons, h]
  simp [isTerminated, Workflow.execStates]

/-- The turn of a step that returns the terminal signal: the loop ends with the
output of the step and a nil error. -/
theorem execStatesFrom_step_terminated {F B Val : Type} (w : Engine F B Val)
    (state : State F B) (rest : States F B) (input output out : Option Val)
    (branch : Option (States F B)) (err : Option error)
    (h : Workflow.execStateWithFilter w state input = .returned (out, branch, err))
    (hterm : isTerminated err = true) :
    Workflow.execStatesFrom w (state :: rest) input output = .returned (out, none) := by
  rw [execStatesFrom_cons, h]
  simp [hterm]

/-- The turn of a step that returns another error: the loop ends with a nil output
and that error. -/
theorem execStatesFrom_step_error {F B Val : Type} (w : Engine F B Val)
    (state : State F B) (rest : States F B) (input output out : Option Val)
    (branch : Option (States F B)) (e : error)
    (h : Workflow.execStateWithFilter w state input = .returned (out, branch, some e))
    (hterm : isTerminated (some e) = false) :
    Workflow.execStatesFrom w (state :: rest) input output = .returned (none, some e) := by
  rw [execStatesFrom_cons, h]
  simp [hterm]

/-- The named result `output` is read only when there is no state. -/
theorem execStatesFrom_cons_output {F B Val : Type} (w : Engine F B Val) (state : State F B)
    (rest : States F B) (input output output' : Option Val) :
    Workflow.execStatesFrom w (state :: rest) input output =
      Workflow.execStatesFrom w (state :: rest) input output' := by
  rw [execStatesFrom_cons, execStatesFrom_cons]

/-- When the traversal comes to a state, what is left of it is the loop from that
state. -/
theorem execStates_of_arrives {F B Val : Type} (w : Engine F B Val) (states : States F B)
    (v : Option Val) (s : State F B) (rest : States F B) (v' : Option Val)
    (h : Workflow.Arrives w states v s rest v') (output : Option Val) :
    Workflow.execStatesFrom w states v output = Workflow.execStatesFrom w (s :: rest) v' none := by
  induction h generalizing output with
  | here state rest v => exact execStatesFrom_cons_output w state rest v output none
  | next state states v out s rest v' hstep _ ih =>
    rw [execStatesFrom_step_next w state states v output out hstep]
    exact ih out
  | branch state states branch v out s rest v' hstep _ ih =>
    rw [execStatesFrom_step_branch w state states branch v output out hstep]
    exact ih none

/-- After steps that return no branch and no error, the loop goes on with the states
that follow, on the last output. -/
theorem execStatesFrom_of_threads {F B Val : Type} (w : Engine F B Val) (pre : States F B)
    (v v' : Option Val) (h : Workflow.Threads w pre v v') (post : States F B)
    (output : Option Val) :
    Workflow.execStatesFrom w (pre ++ post) v output =
      Workflow.execStatesFrom w post v' (if pre.isEmpty then output else v') := by
  induction h generalizing output with
  | nil v => simp
  | cons state states v out v' hstep hrest ih =>
    rw [List.cons_append, execStatesFrom_step_next w state _ v output out hstep, ih out]
    cases hrest with
    | nil => simp
    | cons _ _ _ _ _ _ _ => simp

/-- C20. For every input `v`, `execStates` on an empty sequence of states returns a
nil output with a nil error, not `v`; so does a traversal whose step returns an empty
branch, whatever the output of that step and whatever states follow it. -/
theorem execStates_empty {F B Val : Type} (w : Engine F B Val) :
    (∀ v : Option Val, Workflow.execStates w [] v = .returned (none, none)) ∧
      (∀ (state : State F B) (rest : States F B) (v out : Option Val),
        Workflow.execStateWithFilter w state v = .returned (out, some [], none) →
        Workflow.execStates w (state :: rest) v = .returned (none, none)) := by
  constructor
  · intro v
    exact execStatesFrom_nil w v none
  · intro state rest v out h
    unfold Workflow.execStates
    rw [execStatesFrom_step_branch w state rest [] v none out h]
    exact execStatesFrom_nil w out none

/-- C20, at a choice whose matched branch is empty: the output is nil, not the
input. -/
theorem execStates_empty_witness :
    Workflow.execStates (sampleEngine true) [sampleChoice "k" [("k", [])]] (some "in") =
      .returned (none, none) :=
  (execStates_empty (sampleEngine true)).2 (sampleChoice "k" [("k", [])]) [] (some "in")
    (some "in") rfl

/-- C16. For every sequence of states and every input `v`: when the steps of the
states `pre` return no branch, no error and no terminal signal, each output being the
input of the next step, and the step of the state `si` that follows them returns
the branch `b` with output `out`, the result is that of `execStates` on `b` and `out`,
whatever the states `post` after `si` are; and when the steps of all the states, at
least one, return no branch, the result is the output of the last one, with a nil
error. -/
theorem execStates_reference_traversal {F B Val : Type} (w : Engine F B Val) :
    (∀ (pre : States F B) (si : State F B) (post b : States F B) (v v' out : Option Val),
        Workflow.Threads w pre v v' →
        Workflow.execStateWithFilter w si v' = .returned (out, some b, none) →
        Workflow.execStates w (pre ++ si :: post) v = Workflow.execStates w b out) ∧
      (∀ (states : States F B) (v v' : Option Val), states ≠ [] →
        Workflow.Threads w states v v' →
        Workflow.execStates w states v = .returned (v', none)) := by
  constructor
  · intro pre si post b v v' out hpre hstep
    unfold Workflow.execStates
    rw [execStatesFrom_of_threads w pre v v' hpre (si :: post) none]
    exact execStatesFrom_step_branch w si post b v' _ out hstep
  · intro states v v' hne hall
    unfold Workflow.execStates
    have key := execStatesFrom_of_threads w states v v' hall [] none
    rw [List.append_nil] at key
    rw [key, execStatesFrom_nil]
    cases states with
    | nil => exact absurd rfl hne
    | cons _ _ => rfl

/-- C16, at a sequence of a pass state, a choice that matches the branch `k`, and a
pass state after it: the result is that of the branch on the output of the choice,
and the last pass state plays no part. -/
theorem execStates_reference_traversal_witness :
    Workflow.execStates (sampleEngine true)
        ([sampleState (.PassState "a")] ++
          sampleChoice "k" [("k", [sampleState (.PassState "big")])] ::
            [sampleState (.PassState "never")]) (some "in") =
      Workflow.execStates (sampleEngine true) [sampleState (.PassState "big")] (some "a") :=
  (execStates_reference_traversal (sampleEngine true)).1 [sampleState (.PassState "a")]
    (sampleChoice "k" [("k", [sampleState (.PassState "big")])])
    [sampleState (.PassState "never")] [sampleState (.PassState "big")]
    (some "in") (some "a") (some "a")
    (Workflow.Threads.cons _ _ _ _ _ rfl (Workflow.Threads.nil _)) rfl

/-- When the traversal comes to a state whose step ends the process (in `errorLog`, or
in an evaluating method), the traversal ends there with the process. -/
theorem execStates_of_arrives_exited {F B Val : Type} (w : Engine F B Val)
    (states : States F B) (v : Option Val) (s : State F B) (rest : States F B)
    (v' : Option Val) (code : Nat)
    (harrives : Workflow.Arrives w states v s rest v')
    (hstep : Workflow.execStateWithFilter w s v' = .exited code) :
    Workflow.execStates w states v = .exited code := by
  unfold Workflow.execStates
  rw [execStates_of_arrives w states v s rest v' harrives none, execStatesFrom_cons, hstep]

/-! ### Facts about one step -/

theorem Outcome.bind_returned {α β : Type} (v : α) (f : α → Outcome β) :
    (Outcome.returned v).bind f = f v := rfl

theorem errorLog_bind_returned {F B Val α : Type} (w : Engine F B Val) (x : α) :
    ((Workflow.errorLog w).bind fun _ => Outcome.returned x) =
      if w.fatalReturns then .returned x else .exited 1 := by
  unfold Workflow.errorLog
  cases w.fatalReturns <;> rfl

/-- What `eval` does with the result of the evaluating method of the state. -/
theorem eval_of_evalKind {F B Val : Type} (w : Engine F B Val) (state : State F B)
    (input : Option Val) (o : Outcome (Option Val × Option error))
    (h : Workflow.evalKind w state input = some o) :
    Workflow.eval w state input = o.bind fun r => .returned (evalReturn r) := by
  unfold Workflow.evalKind at h
  unfold Workflow.eval
  split at h <;> simp_all

/-- Whatever `eval` returns, the `statesError` is empty and the error is not the
terminal signal. -/
theorem eval_returned {F B Val : Type} (w : Engine F B Val) (state : State F B)
    (input out : Option Val) (se : statesError) (err : Option error)
    (h : Workflow.eval w state input = .returned (out, se, err)) :
    se = "" ∧ isTerminated err = false := by
  have hret : ∀ r : Option Val × Option error,
      (evalReturn r).2.1 = "" ∧ isTerminated (evalReturn r).2.2 = false := by
    intro r
    unfold evalReturn
    split
    · exact ⟨rfl, rfl⟩
    · split
      · rename_i hnt _
        exact ⟨rfl, by simpa using hnt⟩
      · exact ⟨rfl, rfl⟩
  cases hk : Workflow.evalKind w state input with
  | some o =>
    rw [eval_of_evalKind w state input o hk] at h
    obtain ⟨r, _, hr⟩ := Outcome.bind_eq_returned _ _ _ h
    simp only [Outcome.returned.injEq] at hr
    have := hret r
    rw [hr] at this
    exact this
  | none =>
    unfold Workflow.evalKind at hk
    unfold Workflow.eval at h
    split at hk <;> try (simp at hk)
    rename_i hbody
    split at h <;> try (simp_all; done)
    obtain ⟨_, _, hr⟩ := Outcome.bind_eq_returned _ _ _ h
    simp only [Outcome.returned.injEq, Prod.mk.injEq] at hr
    obtain ⟨_, rfl, rfl⟩ := hr
    exact ⟨rfl, rfl⟩

/-- A state that is not a choice: `execState` hands on what `eval` returns, with no
branch. -/
theorem execState_of_eval {F B Val : Type} (w : Engine F B Val) (state : State F B)
    (input out : Option Val) (se : statesError) (err : Option error)
    (hbody : ∀ c, state.Body ≠ StateBody.ChoiceState c)
    (h : Workflow.eval w state input = .returned (out, se, err)) :
    Workflow.execState w state input =
      if err ≠ none then .returned (none, none, "", err) else .returned (out, none, "", none) := by
  obtain ⟨hse, hterm⟩ := eval_returned w state input out se err h
  subst hse
  unfold Workflow.execState
  split
  · rename_i c hc
    exact absurd hc (hbody c)
  · rw [h]
    simp only [Outcome.bind, hterm]
    simp

/-- When `execState` returns no error and no `statesError`, or an error that is not the
terminal signal, `execStateWithRetry` returns the same, the `statesError` left out. -/
theorem execStateWithRetry_of_execState {F B Val : Type} (w : Engine F B Val)
    (state : State F B) (input result : Option Val) (branch : Option (States F B))
    (err : Option error)
    (h : Workflow.execState w state input = .returned (result, branch, "", err))
    (hterm : isTerminated err = false) :
    Workflow.execStateWithRetry w state input =
      if err ≠ none then .returned (none, none, err) else .returned (result, branch, none) := by
  unfold Workflow.execStateWithRetry
  rw [h]
  simp only [Outcome.bind, hterm]
  simp

theorem execStateWithFilter_input_error {F B Val : Type} (w : Engine F B Val)
    (state : State F B) (rawinput x : Option Val) (e : error)
    (h : w.GenerateEffectiveInput state rawinput = (x, some e)) :
    Workflow.execStateWithFilter w state rawinput =
      if w.fatalReturns then .returned (none, none, some e) else .exited 1 := by
  unfold Workflow.execStateWithFilter
  rw [h]
  exact errorLog_bind_returned w _

/-- The step once the input filter has passed and `execStateWithRetry` has returned. -/
theorem execStateWithFilter_of_core {F B Val : Type} (w : Engine F B Val)
    (state : State F B) (rawinput ei result : Option Val) (branch : Option (States F B))
    (err : Option error)
    (hin : w.GenerateEffectiveInput state rawinput = (ei, none))
    (hcore : Workflow.execStateWithRetry w state ei = .returned (result, branch, err)) :
    Workflow.execStateWithFilter w state rawinput =
      if isTerminated err then .returned (result, none, err)
      else if err ≠ none then .returned (none, none, err)
      else
        match w.GenerateEffectiveResult state rawinput result with
        | (_, some e) => if w.fatalReturns then .returned (none, none, some e) else .exited 1
        | (er, none) =>
          match w.FilterByOutputPath state er with
          | (_, some e) => if w.fatalReturns then .returned (none, none, some e) else .exited 1
          | (eo, none) => .returned (eo, branch, none) := by
  unfold Workflow.execStateWithFilter
  rw [hin]
  dsimp only
  rw [hcore, Outcome.bind_returned]
  dsimp only
  by_cases ht : isTerminated err = true
  · rw [if_pos ht, if_pos ht]
  · rw [if_neg ht, if_neg ht]
    by_cases he : err ≠ none
    · rw [if_pos he, if_pos he]
    · rw [if_neg he, if_neg he]
      rcases hG : w.GenerateEffectiveResult state rawinput result with ⟨er, _ | e⟩
      · dsimp only
        rcases hF : w.FilterByOutputPath state er with ⟨eo, _ | e2⟩
        · rfl
        · exact errorLog_bind_returned w _
      · exact errorLog_bind_returned w _

theorem evalKind_not_choice {F B Val : Type} (w : Engine F B Val) (state : State F B)
    (input : Option Val) (o : Outcome (Option Val × Option error))
    (h : Workflow.evalKind w state input = some o) :
    ∀ c, state.Body ≠ StateBody.ChoiceState c := by
  intro c hc
  unfold Workflow.evalKind at h
  rw [hc] at h
  simp at h

/-- The step of a state whose evaluating method returns an error that is not the
terminal signal. -/
theorem step_of_failed_kind {F B Val : Type} (w : Engine F B Val) (state : State F B)
    (input o : Option Val) (e : error)
    (hkind : Workflow.evalKind w state input = some (.returned (o, some e)))
    (hterm : isTerminated (some e) = false) :
    Workflow.eval w state input = .returned (none, "", some e) ∧
      Workflow.execStateWithRetry w state input = .returned (none, none, some e) := by
  have heval : Workflow.eval w state input = .returned (none, "", some e) := by
    rw [eval_of_evalKind w state input _ hkind, Outcome.bind_returned]
    simp [evalReturn, hterm]
  have hstate := execState_of_eval w state input none "" (some e)
    (evalKind_not_choice w state input _ hkind) heval
  simp only [ne_eq, reduceCtorEq, not_false_eq_true, if_true] at hstate
  have hretry := execStateWithRetry_of_execState w state input none none (some e) hstate hterm
  simp only [ne_eq, reduceCtorEq, not_false_eq_true, if_true] at hretry
  exact ⟨heval, hretry⟩

/-- The step of a state whose evaluating method returns the terminal signal, or no
error: `execStateWithRetry` returns its output with a nil error. -/
theorem step_of_passed_kind {F B Val : Type} (w : Engine F B Val) (state : State F B)
    (input o : Option Val) (err : Option error)
    (hkind : Workflow.evalKind w state input = some (.returned (o, err)))
    (herr : err = none ∨ isTerminated err = true) :
    Workflow.execStateWithRetry w state input = .returned (o, none, none) := by
  have heval : Workflow.eval w state input = .returned (o, "", none) := by
    rw [eval_of_evalKind w state input _ hkind, Outcome.bind_returned]
    rcases herr with rfl | ht
    · simp [evalReturn, isTerminated]
    · simp [evalReturn, ht]
  have hstate := execState_of_eval w state input o "" none
    (evalKind_not_choice w state input _ hkind) heval
  simp only [ne_eq, not_true_eq_false, if_false] at hstate
  have hretry := execStateWithRetry_of_execState w state input o none none hstate rfl
  simpa using hretry

/-- C11 (as amended). For every state and raw input: when the input filter, core
evaluation with retry, result composition and the output filter all return without
error (and without the terminal signal), `execStateWithFilter` returns the output
filter of the result composition, on the raw input, of the result of core evaluation
on the effective input, with the branch of core evaluation. When core evaluation
returns an error other than the terminal signal, the later stages are not run and
that error is returned with no output and no branch. When the input filter, result
composition or the output filter fails, the later stages are not run and the error
goes to `errorLog`: the process ends there with status 1, unless the logger's exit
function returns, in which case that error is returned with no output and no
branch. -/
theorem execStateWithFilter_pipeline {F B Val : Type} (w : Engine F B Val)
    (state : State F B) (rawinput : Option Val) :
    (∀ ei result branch er eo,
        w.GenerateEffectiveInput state rawinput = (ei, none) →
        Workflow.execStateWithRetry w state ei = .returned (result, branch, none) →
        w.GenerateEffectiveResult state rawinput result = (er, none) →
        w.FilterByOutputPath state er = (eo, none) →
        Workflow.execStateWithFilter w state rawinput = .returned (eo, branch, none)) ∧
      (∀ ei result branch e,
        w.GenerateEffectiveInput state rawinput = (ei, none) →
        Workflow.execStateWithRetry w state ei = .returned (result, branch, some e) →
        isTerminated (some e) = false →
        Workflow.execStateWithFilter w state rawinput = .returned (none, none, some e)) ∧
      (∀ x e,
        w.GenerateEffectiveInput state rawinput = (x, some e) →
        Workflow.execStateWithFilter w state rawinput =
          if w.fatalReturns then .returned (none, none, some e) else .exited 1) ∧
      (∀ ei result branch x e,
        w.GenerateEffectiveInput state rawinput = (ei, none) →
        Workflow.execStateWithRetry w state ei = .returned (result, branch, none) →
        w.GenerateEffectiveResult state rawinput result = (x, some e) →
        Workflow.execStateWithFilter w state rawinput =
          if w.fatalReturns then .returned (none, none, some e) else .exited 1) ∧
      (∀ ei result branch er x e,
        w.GenerateEffectiveInput state rawinput = (ei, none) →
        Workflow.execStateWithRetry w state ei = .returned (result, branch, none) →
        w.GenerateEffectiveResult state rawinput result = (er, none) →
        w.FilterByOutputPath state er = (x, some e) →
        Workflow.execStateWithFilter w state rawinput =
          if w.fatalReturns then .returned (none, none, some e) else .exited 1) := by
  refine ⟨?_, ?_, ?_, ?_, ?_⟩
  · intro ei result branch er eo hin hcore hres hout
    rw [execStateWithFilter_of_core w state rawinput ei result branch none hin hcore, hres]
    dsimp only
    rw [hout]
    rfl
  · intro ei result branch e hin hcore hterm
    rw [execStateWithFilter_of_core w state rawinput ei result branch (some e) hin hcore,
      hterm]
    simp
  · intro x e hin
    exact execStateWithFilter_input_error w state rawinput x e hin
  · intro ei result branch x e hin hcore hres
    rw [execStateWithFilter_of_core w state rawinput ei result branch none hin hcore, hres]
    rfl
  · intro ei result branch er x e hin hcore hres hout
    rw [execStateWithFilter_of_core w state rawinput ei result branch none hin hcore, hres]
    dsimp only
    rw [hout]
    rfl

/-- C11, refuted as stated at a pass state whose `InputPath` is not found, with a
logger whose exit function ends the process: the input filter fails, and the call
ends the process in `errorLog`; no error is returned. -/
theorem execStateWithFilter_failed_filter_exits :
    (sampleEngine false).GenerateEffectiveInput
        (State.mk "$.missing" (StateBody.PassState "a") []) (some "in") =
        (none, some (error.Errorf "InputPath is not found")) ∧
      Workflow.execStateWithFilter (sampleEngine false)
        (State.mk "$.missing" (StateBody.PassState "a") []) (some "in") = .exited 1 ∧
      ¬ ∃ e, Workflow.execStateWithFilter (sampleEngine false)
        (State.mk "$.missing" (StateBody.PassState "a") []) (some "in") =
          .returned (none, none, some e) := by
  refine ⟨rfl, rfl, ?_⟩
  rintro ⟨e, h⟩
  have hexit : Workflow.execStateWithFilter (sampleEngine false)
      (State.mk "$.missing" (StateBody.PassState "a") []) (some "in") = .exited 1 := rfl
  rw [hexit] at h
  cases h

/-- C12, at a `Succeed` state followed by a pass state. The evaluation of `Succeed`
raises the terminal signal with output `in`; `eval` returns that output with a nil
error, the traversal goes on to the pass state, and the value returned is the output
`later` of the pass state, not the output of `Succeed`. -/
theorem execStates_goes_on_after_Succeed :
    (sampleEngine true).evalSucceed "" (some "in") =
        .returned (some "in", some error.ErrStateMachineTerminated) ∧
      Workflow.eval (sampleEngine true) (sampleState (.SucceedState "")) (some "in") =
        .returned (some "in", "", none) ∧
      Workflow.execStates (sampleEngine true)
        [sampleState (.SucceedState ""), sampleState (.PassState "later")] (some "in") =
        .returned (some "later", none) := by
  refine ⟨rfl, rfl, ?_⟩
  unfold Workflow.execStates
  rw [execStatesFrom_step_next (sampleEngine true) (sampleState (.SucceedState ""))
      [sampleState (.PassState "later")] (some "in") none (some "in") rfl,
    execStatesFrom_step_next (sampleEngine true) (sampleState (.PassState "later")) []
      (some "in") (some "in") (some "later") rfl,
    execStatesFrom_nil]

/-- C13, refuted as stated at a traversal that reaches a `Fail` state whose evaluation
raises the terminal signal: `execStates`, and `Workflow.exec` after it, end with the
output `in` and a nil error. -/
theorem execStates_Fail_returns_nil_error :
    (sampleEngine true).evalFail "" (some "in") =
        .returned (some "in", some error.ErrStateMachineTerminated) ∧
      Workflow.execStates (sampleEngine true) [sampleState (.FailState "")] (some "in") =
        .returned (some "in", none) ∧
      Workflow.exec (sampleEngine true) [sampleState (.FailState "")] (some "in") =
        .returned (some "in", none) := by
  have hrun : Workflow.execStates (sampleEngine true) [sampleState (.FailState "")]
      (some "in") = .returned (some "in", none) := by
    unfold Workflow.execStates
    rw [execStatesFrom_step_next (sampleEngine true) (sampleState (.FailState "")) []
        (some "in") none (some "in") rfl,
      execStatesFrom_nil]
  refine ⟨rfl, hrun, ?_⟩
  unfold Workflow.exec
  rw [hrun]
  rfl

/-- C15 (as amended). For every choice state and input on which the evaluation of the
conditions returns the key `k` with output `out` and no error: when `k` is a key of
the table of branches, `execState` returns `out`, the branch of `k`, an empty
`statesError` and a nil error; when `k` is not a key, the error with the text
`'next' key is invalid: k` goes to `errorLog`: the process ends there with status 1,
unless the logger's exit function returns, in which case that error is returned with
no output and no branch. -/
theorem execState_choice {F B Val : Type} (w : Engine F B Val) (state : State F B)
    (choice : B) (input out : Option Val) (k : String)
    (hbody : state.Body = StateBody.ChoiceState choice)
    (heval : w.evalChoice choice input = .returned (k, out, none)) :
    (∀ b, state.Choices.lookup k = some b →
        Workflow.execState w state input = .returned (out, some b, "", none)) ∧
      (state.Choices.lookup k = none →
        Workflow.execState w state input =
          if w.fatalReturns then
            .returned (none, none, "", some (error.Errorf ("'next' key is invalid: " ++ k)))
          else .exited 1) := by
  have hunfold : Workflow.execState w state input =
      match state.Choices.lookup k with
      | none =>
        (Workflow.errorLog w).bind fun _ =>
          .returned (none, none, "", some (error.Errorf ("'next' key is invalid: " ++ k)))
      | some s => .returned (out, some s, "", none) := by
    unfold Workflow.execState
    rw [hbody]
    dsimp only
    rw [heval, Outcome.bind_returned]
    simp [isTerminated]
  constructor
  · intro b hb
    rw [hunfold, hb]
  · intro hnone
    rw [hunfold, hnone]
    exact errorLog_bind_returned w _

/-- C15, at a choice that matches the key `k` of its table: the branch of `k` and the
input as output. -/
theorem execState_choice_witness :
    Workflow.execState (sampleEngine true)
        (sampleChoice "k" [("k", [sampleState (.PassState "big")])]) (some "in") =
      .returned (some "in", some [sampleState (.PassState "big")], "", none) :=
  (execState_choice (sampleEngine true)
    (sampleChoice "k" [("k", [sampleState (.PassState "big")])]) "k" (some "in") (some "in")
    "k" rfl rfl).1 [sampleState (.PassState "big")] rfl

/-- C15, refuted as stated at a choice that matches a key `k` absent from its (empty)
table, with a logger whose exit function ends the process: `execState` ends the
process in `errorLog`; it does not return the invalid-branch error. -/
theorem execState_absent_key_exits :
    (sampleEngine false).evalChoice "k" (some "in") = .returned ("k", some "in", none) ∧
      (sampleChoice "k" []).Choices.lookup "k" = none ∧
      Workflow.execState (sampleEngine false) (sampleChoice "k" []) (some "in") = .exited 1 ∧
      ¬ ∃ e, Workflow.execState (sampleEngine false) (sampleChoice "k" []) (some "in") =
        .returned (none, none, "", some e) := by
  refine ⟨rfl, rfl, rfl, ?_⟩
  rintro ⟨e, h⟩
  have hexit : Workflow.execState (sampleEngine false) (sampleChoice "k" []) (some "in") =
      .exited 1 := rfl
  rw [hexit] at h
  cases h

/-- C18 (as amended). For every state that is not a choice and whose evaluating method
returns an error `e` other than the terminal signal: `eval` returns a nil output, an
empty `statesError` and the error `e`; `execStateWithRetry` returns `e` as it is, with
no output and no branch (it does not take its retry and catch branch, which returns
the terminal signal); and every traversal that starts with that state, the input
filter passing, ends with a nil output and the error `e`. -/
theorem eval_failure_is_returned {F B Val : Type} (w : Engine F B Val) (state : State F B)
    (input o : Option Val) (e : error)
    (hkind : Workflow.evalKind w state input = some (.returned (o, some e)))
    (hterm : isTerminated (some e) = false) :
    Workflow.eval w state input = .returned (none, "", some e) ∧
      Workflow.execStateWithRetry w state input = .returned (none, none, some e) ∧
      ∀ rawinput rest, w.GenerateEffectiveInput state rawinput = (input, none) →
        Workflow.execStates w (state :: rest) rawinput = .returned (none, some e) := by
  obtain ⟨heval, hretry⟩ := step_of_failed_kind w state input o e hkind hterm
  refine ⟨heval, hretry, ?_⟩
  intro rawinput rest hin
  have hstep := execStateWithFilter_of_core w state rawinput input none none (some e) hin hretry
  rw [hterm] at hstep
  unfold Workflow.execStates
  exact execStatesFrom_step_error w state rest rawinput none none none e
    (by simpa using hstep) hterm

/-- C18, at the sample task state, whose evaluation fails with `ErrInvalidTaskInput`:
the `statesError` is empty and the error is returned. -/
theorem eval_failure_is_returned_witness :
    Workflow.eval (sampleEngine true) (sampleState (.TaskState "t")) (some "in") =
      .returned (none, "", some error.ErrInvalidTaskInput) :=
  (eval_failure_is_returned (sampleEngine true) (sampleState (.TaskState "t")) (some "in")
    none error.ErrInvalidTaskInput rfl rfl).1

/-- C18, refuted as stated at a task state whose evaluation fails, followed by a pass
state: `eval` returns an empty `statesError` with the error, and `execStates` ends
with that error. -/
theorem eval_failure_not_tagged :
    (sampleEngine true).evalTask "t" (some "in") =
        .returned (none, some error.ErrInvalidTaskInput) ∧
      (∃ out err, Workflow.eval (sampleEngine true) (sampleState (.TaskState "t"))
        (some "in") = .returned (out, "", err)) ∧
      Workflow.execStates (sampleEngine true)
        [sampleState (.TaskState "t"), sampleState (.PassState "x")] (some "in") =
        .returned (none, some error.ErrInvalidTaskInput) := by
  refine ⟨rfl, ⟨none, some error.ErrInvalidTaskInput, rfl⟩, ?_⟩
  unfold Workflow.execStates
  exact execStatesFrom_step_error (sampleEngine true) (sampleState (.TaskState "t"))
    [sampleState (.PassState "x")] (some "in") none none none error.ErrInvalidTaskInput
    rfl rfl

/-- C19, at the resource `script:a:b`. `parseResource` succeeds with typ `script` and
name `ab`: the colon of the name is lost, and typ, `:` and name put together give
`script:ab`, not the resource. -/
theorem parseResource_loses_colons :
    (taskWithResource "script:a:b").parseResource =
        (some { typ := "script", name := "ab" }, none) ∧
      "script" ++ ":" ++ "ab" ≠ "script:a:b" ∧ namePart "script:a:b" = "a:b" := by
  decide

/-- How a traversal that ends without error ends: at a last state `s`, on the raw
input `v'`, whose step returned the output with no error, no state being left; or
returned an empty branch, the output being nil then; or returned the terminal
signal. -/
theorem execStatesFrom_last_step {F B Val : Type} (w : Engine F B Val)
    (states : States F B) (v output : Option Val) :
    states ≠ [] → ∀ out, Workflow.execStatesFrom w states v output = .returned (out, none) →
      ∃ s rest v', Workflow.Arrives w states v s rest v' ∧
        ((Workflow.execStateWithFilter w s v' = .returned (out, none, none) ∧ rest = []) ∨
          ((∃ o, Workflow.execStateWithFilter w s v' = .returned (o, some [], none)) ∧
            out = none) ∨
          (∃ branch err, isTerminated err = true ∧
            Workflow.execStateWithFilter w s v' = .returned (out, branch, err))) := by
  refine Workflow.execStatesFrom.induct w
    (motive := fun states v output =>
      states ≠ [] → ∀ out, Workflow.execStatesFrom w states v output = .returned (out, none) →
      ∃ s rest v', Workflow.Arrives w states v s rest v' ∧
        ((Workflow.execStateWithFilter w s v' = .returned (out, none, none) ∧ rest = []) ∨
          ((∃ o, Workflow.execStateWithFilter w s v' = .returned (o, some [], none)) ∧
            out = none) ∨
          (∃ branch err, isTerminated err = true ∧
            Workflow.execStateWithFilter w s v' = .returned (out, branch, err))))
    ?_ ?_ ?_ ?_ ?_ ?_ ?_ states v output
  · intro input output hne
    exact absurd rfl hne
  · intro input output state rest msg hstep _ out h
    rw [execStatesFrom_cons, hstep] at h
    cases h
  · intro input output state rest code hstep _ out h
    rw [execStatesFrom_cons, hstep] at h
    cases h
  · intro input output state rest o branch err hstep hterm _ out h
    rw [execStatesFrom_step_terminated w state rest input output o branch err hstep hterm] at h
    simp only [Outcome.returned.injEq, Prod.mk.injEq, and_true] at h
    subst h
    exact ⟨state, rest, input, Workflow.Arrives.here _ _ _, Or.inr (Or.inr ⟨branch, err, hterm, hstep⟩)⟩
  · intro input output state rest o branch err hstep hterm herr _ out h
    rw [execStatesFrom_cons, hstep] at h
    simp [hterm, herr] at h
  · intro input output state rest o err hterm herr branch hstep _ ih _ out h
    have hnone : err = none := by simpa using herr
    subst hnone
    rw [execStatesFrom_step_branch w state rest branch input output o hstep] at h
    unfold Workflow.execStates at h
    by_cases hb : branch = []
    · subst hb
      rw [execStatesFrom_nil] at h
      simp only [Outcome.returned.injEq, Prod.mk.injEq, and_true] at h
      exact ⟨state, rest, input, Workflow.Arrives.here _ _ _,
        Or.inr (Or.inl ⟨⟨o, hstep⟩, h.symm⟩)⟩
    · obtain ⟨s, r, v', harr, hstop⟩ := ih hb out h
      exact ⟨s, r, v', Workflow.Arrives.branch _ _ _ _ _ _ _ _ hstep harr, hstop⟩
  · intro input output state rest o err hterm herr hstep _ ih _ out h
    have hnone : err = none := by simpa using herr
    subst hnone
    rw [execStatesFrom_step_next w state rest input output o hstep] at h
    by_cases hr : rest = []
    · subst hr
      rw [execStatesFrom_nil] at h
      simp only [Outcome.returned.injEq, Prod.mk.injEq, and_true] at h
      subst h
      exact ⟨state, [], input, Workflow.Arrives.here _ _ _, Or.inl ⟨hstep, rfl⟩⟩
    · obtain ⟨s, r, v', harr, hstop⟩ := ih hr out h
      exact ⟨s, r, v', Workflow.Arrives.next _ _ _ _ _ _ _ hstep harr, hstop⟩

/-- A step that returns no error has gone through the four stages. -/
theorem execStateWithFilter_returned_ok {F B Val : Type} (w : Engine F B Val)
    (state : State F B) (rawinput out : Option Val) (branch : Option (States F B))
    (h : Workflow.execStateWithFilter w state rawinput = .returned (out, branch, none)) :
    ∃ ei result er,
      w.GenerateEffectiveInput state rawinput = (ei, none) ∧
      Workflow.execStateWithRetry w state ei = .returned (result, branch, none) ∧
      w.GenerateEffectiveResult state rawinput result = (er, none) ∧
      w.FilterByOutputPath state er = (out, none) := by
  rcases hG : w.GenerateEffectiveInput state rawinput with ⟨ei, _ | e⟩
  · cases hR : Workflow.execStateWithRetry w state ei with
    | panicked msg =>
      unfold Workflow.execStateWithFilter at h
      rw [hG] at h
      dsimp only at h
      rw [hR] at h
      cases h
    | exited code =>
      unfold Workflow.execStateWithFilter at h
      rw [hG] at h
      dsimp only at h
      rw [hR] at h
      cases h
    | returned r =>
      obtain ⟨result, br, err⟩ := r
      rw [execStateWithFilter_of_core w state rawinput ei result br err hG hR] at h
      by_cases ht : isTerminated err = true
      · rw [if_pos ht] at h
        simp only [Outcome.returned.injEq, Prod.mk.injEq] at h
        rw [h.2.2] at ht
        cases ht
      · rw [if_neg ht] at h
        by_cases he : err ≠ none
        · rw [if_pos he] at h
          simp only [Outcome.returned.injEq, Prod.mk.injEq] at h
          exact absurd h.2.2 he
        · rw [if_neg he] at h
          have herr : err = none := by simpa using he
          subst herr
          rcases hE : w.GenerateEffectiveResult state rawinput result with ⟨er, _ | e⟩
          · rw [hE] at h
            dsimp only at h
            rcases hF : w.FilterByOutputPath state er with ⟨eo, _ | e2⟩
            · rw [hF] at h
              simp only [Outcome.returned.injEq, Prod.mk.injEq, and_true] at h
              obtain ⟨rfl, rfl⟩ := h
              exact ⟨ei, result, er, rfl, hR, hE, hF⟩
            · rw [hF] at h
              dsimp only at h
              split at h <;> simp at h
          · rw [hE] at h
            dsimp only at h
            split at h <;> simp at h
  · rw [execStateWithFilter_input_error w state rawinput ei e hG] at h
    split at h <;> simp at h

/-- C14 (as amended). For every run of `execStates` on a sequence of at least one
state that ends without error, there is a last state `s` that the traversal comes to,
on a raw input `v'`, and the output returned is: the post-filter output of `s` (the
output filter of the result composition of its core result) when the step of `s`
returns no error and no branch and no state is left after `s`; nil when the step of
`s` returns an empty branch; and what the step of `s` returns with the terminal
signal when it returns that signal. In this last case, when the signal comes from
core evaluation, what is returned is the result of core evaluation itself: result
composition and the output filter are not applied to it. -/
theorem execStates_output_of_last_state {F B Val : Type} (w : Engine F B Val)
    (states : States F B) (v out : Option Val) (hne : states ≠ [])
    (h : Workflow.execStates w states v = .returned (out, none)) :
    (∃ s rest v', Workflow.Arrives w states v s rest v' ∧
        ((rest = [] ∧ ∃ ei result er,
            w.GenerateEffectiveInput s v' = (ei, none) ∧
            Workflow.execStateWithRetry w s ei = .returned (result, none, none) ∧
            w.GenerateEffectiveResult s v' result = (er, none) ∧
            w.FilterByOutputPath s er = (out, none)) ∨
          ((∃ o, Workflow.execStateWithFilter w s v' = .returned (o, some [], none)) ∧
            out = none) ∨
          (∃ branch err, isTerminated err = true ∧
            Workflow.execStateWithFilter w s v' = .returned (out, branch, err)))) ∧
      (∀ (s : State F B) (rest : States F B) (v' ei result : Option Val)
          (branch : Option (States F B)) (err : Option error),
        w.GenerateEffectiveInput s v' = (ei, none) →
        Workflow.execStateWithRetry w s ei = .returned (result, branch, err) →
        isTerminated err = true →
        Workflow.execStates w (s :: rest) v' = .returned (result, none)) := by
  constructor
  · obtain ⟨s, rest, v', harr, hstop⟩ := execStatesFrom_last_step w states v none hne out h
    refine ⟨s, rest, v', harr, ?_⟩
    rcases hstop with ⟨hstep, hrest⟩ | hempty | hterm
    · exact Or.inl ⟨hrest, execStateWithFilter_returned_ok w s v' out none hstep⟩
    · exact Or.inr (Or.inl hempty)
    · exact Or.inr (Or.inr hterm)
  · intro s rest v' ei result branch err hin hcore hterm
    have hstep := execStateWithFilter_of_core w s v' ei result branch err hin hcore
    rw [if_pos hterm] at hstep
    unfold Workflow.execStates
    exact execStatesFrom_step_terminated w s rest v' none result none err hstep hterm

/-- C14, an instance: a traversal of two pass states ends with a nil error, and so
has a last state as described. -/
theorem execStates_output_of_last_state_witness :
    ∃ s rest v', Workflow.Arrives (sampleEngine true)
        [sampleState (.PassState "a"), sampleState (.PassState "b")] (some "in") s rest v' ∧
      ((rest = [] ∧ ∃ ei result er,
          (sampleEngine true).GenerateEffectiveInput s v' = (ei, none) ∧
          Workflow.execStateWithRetry (sampleEngine true) s ei = .returned (result, none, none) ∧
          (sampleEngine true).GenerateEffectiveResult s v' result = (er, none) ∧
          (sampleEngine true).FilterByOutputPath s er = (some "b", none)) ∨
        ((∃ o, Workflow.execStateWithFilter (sampleEngine true) s v' =
            .returned (o, some [], none)) ∧ some "b" = none) ∨
        (∃ branch err, isTerminated err = true ∧
          Workflow.execStateWithFilter (sampleEngine true) s v' =
            .returned (some "b", branch, err))) :=
  (execStates_output_of_last_state (sampleEngine true)
    [sampleState (.PassState "a"), sampleState (.PassState "b")] (some "in") (some "b")
    (by simp)
    (by
      unfold Workflow.execStates
      rw [execStatesFrom_step_next (sampleEngine true) (sampleState (.PassState "a"))
          [sampleState (.PassState "b")] (some "in") none (some "a") rfl,
        execStatesFrom_step_next (sampleEngine true) (sampleState (.PassState "b")) []
          (some "a") (some "a") (some "b") rfl,
        execStatesFrom_nil])).1

/-- C14, refuted as stated at a choice whose evaluation raises the terminal signal,
with an output filter that gives `filtered`: the run ends without error and returns
the input `in`, the result of core evaluation, and not the post-filter output
`filtered` of that state. -/
theorem execStates_terminal_output_unfiltered :
    Workflow.execStates sampleTerminalChoice [sampleChoice "k" []] (some "in") =
        .returned (some "in", none) ∧
      sampleTerminalChoice.FilterByOutputPath (sampleChoice "k" [])
        (sampleTerminalChoice.GenerateEffectiveResult (sampleChoice "k" []) (some "in")
          (some "in")).1 = (some "filtered", none) ∧
      (some "in" : Option String) ≠ some "filtered" := by
  refine ⟨?_, rfl, by decide⟩
  unfold Workflow.execStates
  exact execStatesFrom_step_terminated sampleTerminalChoice (sampleChoice "k" []) []
    (some "in") none (some "in") none (some error.ErrStateMachineTerminated) rfl rfl

/-! ### Failures that go to `errorLog` -/

/-- A non-terminal error that `execState` hands to `errorLog`, or the exit of the
process there, goes up through `execStateWithRetry` as it is. -/
theorem execStateWithRetry_of_logged {F B Val : Type} (w : Engine F B Val)
    (state : State F B) (input : Option Val) (e : error)
    (hterm : isTerminated (some e) = false)
    (h : Workflow.execState w state input =
      if w.fatalReturns then .returned (none, none, "", some e) else .exited 1) :
    Workflow.execStateWithRetry w state input =
      if w.fatalReturns then .returned (none, none, some e) else .exited 1 := by
  unfold Workflow.execStateWithRetry
  rw [h]
  cases w.fatalReturns
  · rfl
  · simp only [if_true, Outcome.bind_returned, hterm]
    simp

/-- The same through `execStateWithFilter`, once the input filter has passed. -/
theorem execStateWithFilter_of_logged {F B Val : Type} (w : Engine F B Val)
    (state : State F B) (rawinput ei : Option Val) (e : error)
    (hterm : isTerminated (some e) = false)
    (hin : w.GenerateEffectiveInput state rawinput = (ei, none))
    (h : Workflow.execStateWithRetry w state ei =
      if w.fatalReturns then .returned (none, none, some e) else .exited 1) :
    Workflow.execStateWithFilter w state rawinput =
      if w.fatalReturns then .returned (none, none, some e) else .exited 1 := by
  cases hf : w.fatalReturns with
  | false =>
    rw [hf] at h
    unfold Workflow.execStateWithFilter
    rw [hin]
    dsimp only
    rw [h]
    rfl
  | true =>
    rw [hf] at h
    rw [execStateWithFilter_of_core w state rawinput ei none none (some e) hin h, hterm]
    simp

/-- What `execState` does with the result of the evaluation of a choice. -/
theorem execState_of_evalChoice {F B Val : Type} (w : Engine F B Val) (state : State F B)
    (choice : B) (input out : Option Val) (k : String) (err : Option error)
    (hbody : state.Body = StateBody.ChoiceState choice)
    (heval : w.evalChoice choice input = .returned (k, out, err)) :
    Workflow.execState w state input =
      if isTerminated err then .returned (out, none, "", err)
      else if err ≠ none then
        (if w.fatalReturns then .returned (none, none, "", err) else .exited 1)
      else
        match state.Choices.lookup k with
        | none =>
          if w.fatalReturns then
            .returned (none, none, "", some (error.Errorf ("'next' key is invalid: " ++ k)))
          else .exited 1
        | some s => .returned (out, some s, "", none) := by
  unfold Workflow.execState
  rw [hbody]
  dsimp only
  rw [heval, Outcome.bind_returned]
  dsimp only
  by_cases ht : isTerminated err = true
  · rw [if_pos ht, if_pos ht]
  · rw [if_neg ht, if_neg ht]
    by_cases he : err ≠ none
    · rw [if_pos he, if_pos he]
      exact errorLog_bind_returned w _
    · rw [if_neg he, if_neg he]
      cases state.Choices.lookup k with
      | none => exact errorLog_bind_returned w _
      | some s => rfl

/-- The end of the traversal at a state whose step returns a non-terminal error, or
ends the process in `errorLog`. -/
theorem execStates_of_arrives_logged {F B Val : Type} (w : Engine F B Val)
    (states : States F B) (v : Option Val) (s : State F B) (rest : States F B)
    (v' : Option Val) (e : error)
    (harrives : Workflow.Arrives w states v s rest v')
    (hterm : isTerminated (some e) = false)
    (hstep : Workflow.execStateWithFilter w s v' =
      if w.fatalReturns then .returned (none, none, some e) else .exited 1) :
    Workflow.execStates w states v =
      if w.fatalReturns then .returned (none, some e) else .exited 1 := by
  unfold Workflow.execStates
  rw [execStates_of_arrives w states v s rest v' harrives none]
  cases hf : w.fatalReturns with
  | false =>
    rw [hf] at hstep
    rw [execStatesFrom_cons, hstep]
    rfl
  | true =>
    rw [hf] at hstep
    rw [execStatesFrom_step_error w s rest v' none none none e (by simpa using hstep) hterm]
    rfl

/-- What `execState` does with a body that is none of the eight state types. -/
theorem execState_of_unknown {F B Val : Type} (w : Engine F B Val) (state : State F B)
    (body : B) (input : Option Val) (hbody : state.Body = StateBody.other body) :
    Workflow.execState w state input =
      if w.fatalReturns then .returned (none, none, "", some error.ErrUnknownStateType)
      else .exited 1 := by
  unfold Workflow.execState Workflow.eval
  rw [hbody]
  dsimp only
  unfold Workflow.errorLog
  cases w.fatalReturns
  · rfl
  · simp only [if_true, Outcome.bind_returned]
    simp [isTerminated, error.Is]

/-- C17 (as amended). For every sequence of states and every input `v`: when the
traversal comes to a state `s` on the raw input `v'` (every step before it, in the
outer sequence or in the branches entered, having returned no error) and the step of
`s` fails with an error `e` that is not the terminal signal, no state after `s` is
evaluated, and:
when the step returns `e`, as it does when core evaluation with retry returns `e`, and
so when the evaluating method of a state that is not a choice returns `e`,
`execStates` returns a nil output and exactly `e`;
when `e` is the error of the input filter, of result composition, of the output
filter or of the evaluation of a choice, or is the invalid-key error of a choice or
the unknown-type error, it goes to `errorLog` first: the traversal ends there with the
process, status 1, unless the logger's exit function returns, in which case
`execStates` returns a nil output and exactly `e`. -/
theorem execStates_first_failure {F B Val : Type} (w : Engine F B Val)
    (states : States F B) (v : Option Val) (s : State F B) (rest : States F B)
    (v' : Option Val) (e : error)
    (harrives : Workflow.Arrives w states v s rest v')
    (hterm : isTerminated (some e) = false) :
    (∀ out branch, Workflow.execStateWithFilter w s v' = .returned (out, branch, some e) →
        Workflow.execStates w states v = .returned (none, some e)) ∧
      (∀ ei result branch, w.GenerateEffectiveInput s v' = (ei, none) →
        Workflow.execStateWithRetry w s ei = .returned (result, branch, some e) →
        Workflow.execStates w states v = .returned (none, some e)) ∧
      (∀ ei o, w.GenerateEffectiveInput s v' = (ei, none) →
        Workflow.evalKind w s ei = some (.returned (o, some e)) →
        Workflow.execStates w states v = .returned (none, some e)) ∧
      (∀ x, w.GenerateEffectiveInput s v' = (x, some e) →
        Workflow.execStates w states v =
          if w.fatalReturns then .returned (none, some e) else .exited 1) ∧
      (∀ ei result branch x, w.GenerateEffectiveInput s v' = (ei, none) →
        Workflow.execStateWithRetry w s ei = .returned (result, branch, none) →
        w.GenerateEffectiveResult s v' result = (x, some e) →
        Workflow.execStates w states v =
          if w.fatalReturns then .returned (none, some e) else .exited 1) ∧
      (∀ ei result branch er x, w.GenerateEffectiveInput s v' = (ei, none) →
        Workflow.execStateWithRetry w s ei = .returned (result, branch, none) →
        w.GenerateEffectiveResult s v' result = (er, none) →
        w.FilterByOutputPath s er = (x, some e) →
        Workflow.execStates w states v =
          if w.fatalReturns then .returned (none, some e) else .exited 1) ∧
      (∀ ei choice k out, w.GenerateEffectiveInput s v' = (ei, none) →
        s.Body = StateBody.ChoiceState choice →
        w.evalChoice choice ei = .returned (k, out, some e) →
        Workflow.execStates w states v =
          if w.fatalReturns then .returned (none, some e) else .exited 1) ∧
      (∀ ei choice k out, w.GenerateEffectiveInput s v' = (ei, none) →
        s.Body = StateBody.ChoiceState choice →
        w.evalChoice choice ei = .returned (k, out, none) →
        s.Choices.lookup k = none →
        e = error.Errorf ("'next' key is invalid: " ++ k) →
        Workflow.execStates w states v =
          if w.fatalReturns then .returned (none, some e) else .exited 1) ∧
      (∀ ei body, w.GenerateEffectiveInput s v' = (ei, none) →
        s.Body = StateBody.other body →
        e = error.ErrUnknownStateType →
        Workflow.execStates w states v =
          if w.fatalReturns then .returned (none, some e) else .exited 1) := by
  have hreturned : ∀ out branch,
      Workflow.execStateWithFilter w s v' = .returned (out, branch, some e) →
      Workflow.execStates w states v = .returned (none, some e) := by
    intro out branch hstep
    unfold Workflow.execStates
    rw [execStates_of_arrives w states v s rest v' harrives none]
    exact execStatesFrom_step_error w s rest v' none out branch e hstep hterm
  have hcore : ∀ ei result branch, w.GenerateEffectiveInput s v' = (ei, none) →
      Workflow.execStateWithRetry w s ei = .returned (result, branch, some e) →
      Workflow.execStates w states v = .returned (none, some e) := by
    intro ei result branch hin hretry
    have hstep := execStateWithFilter_of_core w s v' ei result branch (some e) hin hretry
    rw [hterm] at hstep
    exact hreturned none none (by simpa using hstep)
  have hlogged := execStates_of_arrives_logged w states v s rest v' e harrives hterm
  have hstate : ∀ ei, w.GenerateEffectiveInput s v' = (ei, none) →
      Workflow.execState w s ei =
        (if w.fatalReturns then .returned (none, none, "", some e) else .exited 1) →
      Workflow.execStates w states v =
        if w.fatalReturns then .returned (none, some e) else .exited 1 := by
    intro ei hin hst
    exact hlogged (execStateWithFilter_of_logged w s v' ei e hterm hin
      (execStateWithRetry_of_logged w s ei e hterm hst))
  refine ⟨hreturned, hcore, ?_, ?_, ?_, ?_, ?_, ?_, ?_⟩
  · intro ei o hin hkind
    exact hcore ei none none hin (step_of_failed_kind w s ei o e hkind hterm).2
  · intro x hin
    exact hlogged (execStateWithFilter_input_error w s v' x e hin)
  · intro ei result branch x hin hretry hres
    apply hlogged
    rw [execStateWithFilter_of_core w s v' ei result branch none hin hretry, hres]
    rfl
  · intro ei result branch er x hin hretry hres hout
    apply hlogged
    rw [execStateWithFilter_of_core w s v' ei result branch none hin hretry, hres]
    dsimp only
    rw [hout]
    rfl
  · intro ei choice k out hin hbody heval
    apply hstate ei hin
    rw [execState_of_evalChoice w s choice ei out k (some e) hbody heval, hterm]
    simp
  · intro ei choice k out hin hbody heval hlookup he
    apply hstate ei hin
    rw [execState_of_evalChoice w s choice ei out k none hbody heval, hlookup, he]
    simp [isTerminated]
  · intro ei body hin hbody he
    apply hstate ei hin
    rw [execState_of_unknown w s body ei hbody, he]

/-- C17, at a failing task inside the branch of a choice: the error of the task is
the result, and the pass states after the task and after the choice play no part. -/
theorem execStates_first_failure_witness :
    Workflow.execStates (sampleEngine true)
        [sampleChoice "k" [("k", [sampleState (.TaskState "t"), sampleState (.PassState "x")])],
          sampleState (.PassState "never")] (some "in") =
      .returned (none, some error.ErrInvalidTaskInput) :=
  (execStates_first_failure (sampleEngine true)
    [sampleChoice "k" [("k", [sampleState (.TaskState "t"), sampleState (.PassState "x")])],
      sampleState (.PassState "never")]
    (some "in") (sampleState (.TaskState "t"))
    [sampleState (.PassState "x")] (some "in") error.ErrInvalidTaskInput
    (Workflow.Arrives.branch
      (sampleChoice "k" [("k", [sampleState (.TaskState "t"), sampleState (.PassState "x")])])
      [sampleState (.PassState "never")]
      [sampleState (.TaskState "t"), sampleState (.PassState "x")]
      (some "in") (some "in") _ _ _ rfl (Workflow.Arrives.here _ _ _)) rfl).1
    none none rfl

/-- C17, refuted as stated at a sequence whose first state has an `InputPath` that is
not found, with a logger whose exit function ends the process: the first step fails
in its input filter with an error that is not the terminal signal, and `execStates`
ends with the process; it returns no error. -/
theorem execStates_first_failure_exits :
    (sampleEngine false).GenerateEffectiveInput
        (State.mk "$.missing" (StateBody.PassState "a") []) (some "in") =
        (none, some (error.Errorf "InputPath is not found")) ∧
      isTerminated (some (error.Errorf "InputPath is not found")) = false ∧
      Workflow.execStates (sampleEngine false)
        [State.mk "$.missing" (StateBody.PassState "a") [], sampleState (.PassState "never")]
        (some "in") = .exited 1 ∧
      ¬ ∃ e, Workflow.execStates (sampleEngine false)
        [State.mk "$.missing" (StateBody.PassState "a") [], sampleState (.PassState "never")]
        (some "in") = .returned (none, some e) := by
  have hexit : Workflow.execStates (sampleEngine false)
      [State.mk "$.missing" (StateBody.PassState "a") [], sampleState (.PassState "never")]
      (some "in") = .exited 1 :=
    execStates_of_arrives_exited (sampleEngine false) _ (some "in") _ _ (some "in") 1
      (Workflow.Arrives.here _ _ _) rfl
  refine ⟨rfl, rfl, hexit, ?_⟩
  rintro ⟨e, h⟩
  rw [hexit] at h
  cases h

/-- C13 (as amended). For every sequence of states and every input, when the traversal
comes to a `Fail` state `s` (in the outer sequence or in a branch entered) on which the
input filter passes: when the evaluation of `s` returns an error other than the
terminal signal, `execStates` ends with a nil output and that error; and when it
raises the terminal signal, or returns a nil error, and `s` is the last state of its
sequence, and result composition and the output filter do not fail, `execStates` ends
with an output and a nil error. -/
theorem execStates_Fail_state {F B Val : Type} (w : Engine F B Val)
    (states : States F B) (v : Option Val) (s : State F B) (rest : States F B)
    (v' : Option Val) (body : B) (ei o : Option Val) (err : Option error)
    (harrives : Workflow.Arrives w states v s rest v')
    (hbody : s.Body = StateBody.FailState body)
    (hin : w.GenerateEffectiveInput s v' = (ei, none))
    (hfail : w.evalFail body ei = .returned (o, err)) :
    (∀ e, err = some e → isTerminated (some e) = false →
        Workflow.execStates w states v = .returned (none, some e)) ∧
      ((err = none ∨ isTerminated err = true) → rest = [] →
        (∀ r, (w.GenerateEffectiveResult s v' r).2 = none) →
        (∀ r, (w.FilterByOutputPath s r).2 = none) →
        ∃ out, Workflow.execStates w states v = .returned (out, none)) := by
  have hkind : Workflow.evalKind w s ei = some (.returned (o, err)) := by
    unfold Workflow.evalKind
    rw [hbody]
    dsimp only
    rw [hfail]
  have hgo := execStates_of_arrives w states v s rest v' harrives none
  constructor
  · intro e he hterm
    subst he
    have hcore := (step_of_failed_kind w s ei o e hkind hterm).2
    have hstep := execStateWithFilter_of_core w s v' ei none none (some e) hin hcore
    rw [hterm] at hstep
    unfold Workflow.execStates
    rw [hgo]
    exact execStatesFrom_step_error w s rest v' none none none e (by simpa using hstep) hterm
  · intro herr hrest hres hout
    subst hrest
    have hcore := step_of_passed_kind w s ei o err hkind herr
    have hstep := execStateWithFilter_of_core w s v' ei o none none hin hcore
    rcases hG : w.GenerateEffectiveResult s v' o with ⟨er, x⟩
    have hx : x = none := by have := hres o; rw [hG] at this; exact this
    subst hx
    rcases hF : w.FilterByOutputPath s er with ⟨eo, y⟩
    have hy : y = none := by have := hout er; rw [hF] at this; exact this
    subst hy
    rw [hG] at hstep
    dsimp only at hstep
    rw [hF] at hstep
    refine ⟨eo, ?_⟩
    unfold Workflow.execStates
    rw [hgo, execStatesFrom_step_next w s [] v' none eo (by simpa [isTerminated] using hstep),
      execStatesFrom_nil]

/-- C13, an instance: a `Fail` state that raises the terminal signal, reached after a
pass state and last of its sequence; the traversal ends with a nil error. -/
theorem execStates_Fail_state_witness :
    ∃ out, Workflow.execStates (sampleEngine true)
        [sampleState (.PassState "a"), sampleState (.FailState "")] (some "in") =
      .returned (out, none) :=
  (execStates_Fail_state (sampleEngine true)
    [sampleState (.PassState "a"), sampleState (.FailState "")] (some "in")
    (sampleState (.FailState "")) [] (some "a") "" (some "a") (some "a")
    (some error.ErrStateMachineTerminated)
    (Workflow.Arrives.next _ _ _ _ _ _ _ rfl (Workflow.Arrives.here _ _ _)) rfl rfl rfl).2
    (Or.inr rfl) rfl (fun _ => rfl) (fun _ => rfl)

end Karage
